import Mathlib

/-!
Verification of the in-memory SQS message-queueing engine
(`localstack/services/sqs/models.py` and `provider.py`).

The Python source is shallowly embedded: mutable objects become immutable
records, `time.time()` becomes an explicit `now : Int` argument (successive
clock reads within one operation are modelled as the same instant), Python
dicts and sets become association lists and lists keyed by the same keys the
Python `__eq__`/`__hash__` implementations use (message id for `SqsMessage`,
group id for `MessageGroup`), and exceptions become `Except` values.
Binary heaps (`heapq`) are plain Lean lists carrying the array encoding of a
binary tree, with sift operations translated below.
-/

namespace SqsSpec

/-- Models from the spec the receipt-handle codec (`encode_receipt_handle` /
`extract_receipt_handle_info` live in `sqs/utils.py`, which is not part of the
sources here): a receipt handle encodes the queue arn, the message id and the
receive timestamp, and is decodable back into those parts. We model the handle
as the decoded record itself. -/
structure ReceiptHandle where
  queueArn : String
  messageId : String
  lastReceived : Int
deriving DecidableEq

/-- Embeds the mutable state of `SqsMessage`. The wrapped `Message` dict is
reduced to the fields the engine reads: id, body, and the system attributes
that the constructor writes into `message["Attributes"]`. -/
structure SqsMessage where
  messageId : String
  body : String
  created : Int
  priority : Int
  receiveCount : Nat
  approximateReceiveCount : Nat
  visibilityTimeout : Int
  visibilityDeadline : Option Int
  delaySeconds : Option Int
  lastReceived : Option Int
  firstReceived : Option Int
  deleted : Bool
  receiptHandles : List ReceiptHandle
  messageGroupId : Option String
  messageDeduplicationId : Option String
  sequenceNumber : Option Nat
deriving DecidableEq

/-- Errors raised by the engine (`sqs/exceptions.py` and the api classes). -/
inductive SqsError where
  | invalidParameterValue (message : String)
  | missingRequiredParameter (message : String)
  | receiptHandleIsInvalid (message : String)
deriving DecidableEq

/-- Models from the spec `sqs_constants.DEDUPLICATION_INTERVAL_IN_SEC`
(`sqs/constants.py` is not part of the sources here); the spec fixes the
deduplication interval at 5 minutes. -/
def DEDUPLICATION_INTERVAL_IN_SEC : Int := 300

/-! ### The array-encoded binary min-heap of `heapq`

`SqsMessage.__lt__` compares by `priority` only, so all heap operations are
parametrised by an integer key function. -/

/-- Exchanges the entries at positions `i` and `j`; out-of-range positions
leave the list unchanged (the sift routines only swap in-range positions). -/
def listSwap (l : List α) (i j : Nat) : List α :=
  match l[i]?, l[j]? with
  | some x, some y => (l.set i y).set j x
  | _, _ => l

theorem length_listSwap (l : List α) (i j : Nat) : (listSwap l i j).length = l.length := by
  unfold listSwap
  rcases hi : l[i]? with _ | x <;> rcases hj : l[j]? with _ | y <;> simp

/-- Auxiliary step for `listSwap_perm`: moving the value at position `j` to
the front while overwriting position `j` is a permutation. -/
theorem cons_set_perm (t : List α) (j : Nat) (y a : α) (hj : t[j]? = some y) :
    (y :: t.set j a).Perm (a :: t) := by
  induction t generalizing j with
  | nil => simp at hj
  | cons b t ih =>
    cases j with
    | zero =>
      simp only [List.getElem?_cons_zero, Option.some.injEq] at hj
      subst hj
      simpa [List.set] using List.Perm.swap a b t
    | succ j =>
      simp only [List.getElem?_cons_succ] at hj
      have h1 : (y :: b :: t.set j a).Perm (b :: y :: t.set j a) := List.Perm.swap b y _
      have h2 : (b :: y :: t.set j a).Perm (b :: a :: t) := List.Perm.cons b (ih j hj)
      have h3 : (b :: a :: t).Perm (a :: b :: t) := List.Perm.swap a b t
      exact (h1.trans h2).trans h3

theorem set_getElem?_self {t : List α} {i : Nat} {x : α} (h : t[i]? = some x) :
    t.set i x = t := by
  induction t generalizing i with
  | nil => simp at h
  | cons b t ih =>
    cases i with
    | zero =>
      simp only [List.getElem?_cons_zero, Option.some.injEq] at h
      subst h
      simp [List.set]
    | succ i =>
      simp only [List.getElem?_cons_succ] at h
      simp [List.set, ih h]

theorem listSwap_perm (l : List α) (i j : Nat) : (listSwap l i j).Perm l := by
  unfold listSwap
  rcases hi : l[i]? with _ | x <;> rcases hj : l[j]? with _ | y
  · exact List.Perm.refl l
  · exact List.Perm.refl l
  · exact List.Perm.refl l
  · induction l generalizing i j with
    | nil => simp at hi
    | cons b t ih =>
      cases i with
      | zero =>
        simp only [List.getElem?_cons_zero, Option.some.injEq] at hi
        subst hi
        cases j with
        | zero =>
          simp only [List.getElem?_cons_zero, Option.some.injEq] at hj
          subst hj
          simp [List.set]
        | succ j =>
          simp only [List.getElem?_cons_succ] at hj
          simp only [List.set]
          exact cons_set_perm t j y b hj
      | succ i =>
        simp only [List.getElem?_cons_succ] at hi
        cases j with
        | zero =>
          simp only [List.getElem?_cons_zero, Option.some.injEq] at hj
          subst hj
          simp only [List.set]
          exact cons_set_perm t i x b hi
        | succ j =>
          simp only [List.getElem?_cons_succ] at hj
          simp only [List.set]
          exact List.Perm.cons b (ih i j hi hj)

theorem listSwap_getElem? {l : List α} {i j : Nat} {x y : α}
    (hi : l[i]? = some x) (hj : l[j]? = some y) (k : Nat) :
    (listSwap l i j)[k]? = if k = j then some x else if k = i then some y else l[k]? := by
  have hil : i < l.length := (List.getElem?_eq_some.mp hi).1
  have hjl : j < l.length := (List.getElem?_eq_some.mp hj).1
  unfold listSwap
  rw [hi, hj]
  by_cases hkj : k = j
  · rw [if_pos hkj, hkj, List.getElem?_set_self (by simpa using hjl)]
  · rw [if_neg hkj, List.getElem?_set_ne (fun h => hkj h.symm)]
    by_cases hki : k = i
    · rw [if_pos hki, hki, List.getElem?_set_self hil]
    · rw [if_neg hki, List.getElem?_set_ne (fun h => hki h.symm)]

/-! ### Sift-down, push and pop (`heapq.heappush` / `heapq.heappop`)

These model the contract of the CPython `heapq` routines used by the source:
`heappush` appends and bubbles the new entry up, `heappop` swaps the last
entry into the root and restores the heap property downwards, returning the
old root, which is the minimum of the heap. -/

/-- Restores the heap property downwards from position `i`: while some child
holds a strictly smaller key than position `i`, exchange with the smaller
child (on key ties between the children, the right child is chosen, as in
CPython) and continue from there. -/
def siftDown (key : α → Int) (l : List α) (i : Nat) : List α :=
  match hl : l[2*i+1]? with
  | none => l
  | some lc =>
    match l[i]? with
    | none => l
    | some x =>
      match l[2*i+2]? with
      | none =>
        if key lc < key x then siftDown key (listSwap l i (2*i+1)) (2*i+1) else l
      | some rc =>
        if key lc < key rc then
          if key lc < key x then siftDown key (listSwap l i (2*i+1)) (2*i+1) else l
        else
          if key rc < key x then siftDown key (listSwap l i (2*i+2)) (2*i+2) else l
termination_by l.length - i
decreasing_by
  all_goals
    have hlen : 2*i+1 < l.length := (List.getElem?_eq_some.mp hl).1
    rw [length_listSwap]
    omega

/-- Restores the heap property upwards from position `j`: while the key at
`j` is strictly smaller than the key of the parent of `j`, exchange the two
and continue from the parent (CPython `_siftdown` with `startpos = 0`). -/
def siftUp (key : α → Int) (l : List α) (j : Nat) : List α :=
  if h : j = 0 then l
  else
    match l[j]?, l[(j-1)/2]? with
    | some c, some p =>
      if key c < key p then siftUp key (listSwap l ((j-1)/2) j) ((j-1)/2) else l
    | _, _ => l
termination_by j
decreasing_by
  omega

/-- Models `heapq.heappush`: append the new entry and sift it up. -/
def heappush (key : α → Int) (l : List α) (x : α) : List α :=
  siftUp key (l ++ [x]) l.length

/-- Models `heapq.heappop`: `None` on the empty list (where CPython raises
`IndexError`); otherwise returns the root together with the list obtained by
moving the last entry to the root and sifting it down. -/
def heappop? (key : α → Int) : List α → Option (α × List α)
  | [] => none
  | [x] => some (x, [])
  | x :: y :: rest =>
    some (x, siftDown key (((y :: rest).getLast (by simp)) :: (y :: rest).dropLast) 0)

/-- Models `heapq.heapify`: sift down every non-leaf position, bottom-up. -/
def heapifyList (key : α → Int) (l : List α) : List α :=
  (List.range (l.length / 2)).reverse.foldl (siftDown key) l

theorem siftDown_perm (key : α → Int) (l : List α) (i : Nat) :
    (siftDown key l i).Perm l := by
  induction l, i using siftDown.induct key with
  | case1 l i hl => rw [siftDown, hl]
  | case2 l i lc hl hx => rw [siftDown, hl, hx]
  | case3 l i lc hl x hx hr hlt ih =>
    rw [siftDown, hl, hx, hr]
    show (if key lc < key x then siftDown key (listSwap l i (2*i+1)) (2*i+1) else l).Perm l
    rw [if_pos hlt]
    exact ih.trans (listSwap_perm l i (2*i+1))
  | case4 l i lc hl x hx hr hlt =>
    rw [siftDown, hl, hx, hr]
    show (if key lc < key x then siftDown key (listSwap l i (2*i+1)) (2*i+1) else l).Perm l
    rw [if_neg hlt]
  | case5 l i lc hl x hx rc hr hc hlt ih =>
    rw [siftDown, hl, hx, hr]
    show (if key lc < key rc then
        if key lc < key x then siftDown key (listSwap l i (2*i+1)) (2*i+1) else l
      else
        if key rc < key x then siftDown key (listSwap l i (2*i+2)) (2*i+2) else l).Perm l
    rw [if_pos hc, if_pos hlt]
    exact ih.trans (listSwap_perm l i (2*i+1))
  | case6 l i lc hl x hx rc hr hc hlt =>
    rw [siftDown, hl, hx, hr]
    show (if key lc < key rc then
        if key lc < key x then siftDown key (listSwap l i (2*i+1)) (2*i+1) else l
      else
        if key rc < key x then siftDown key (listSwap l i (2*i+2)) (2*i+2) else l).Perm l
    rw [if_pos hc, if_neg hlt]
  | case7 l i lc hl x hx rc hr hc hlt ih =>
    rw [siftDown, hl, hx, hr]
    show (if key lc < key rc then
        if key lc < key x then siftDown key (listSwap l i (2*i+1)) (2*i+1) else l
      else
        if key rc < key x then siftDown key (listSwap l i (2*i+2)) (2*i+2) else l).Perm l
    rw [if_neg hc, if_pos hlt]
    exact ih.trans (listSwap_perm l i (2*i+2))
  | case8 l i lc hl x hx rc hr hc hlt =>
    rw [siftDown, hl, hx, hr]
    show (if key lc < key rc then
        if key lc < key x then siftDown key (listSwap l i (2*i+1)) (2*i+1) else l
      else
        if key rc < key x then siftDown key (listSwap l i (2*i+2)) (2*i+2) else l).Perm l
    rw [if_neg hc, if_neg hlt]

theorem siftUp_perm (key : α → Int) (l : List α) (j : Nat) :
    (siftUp key l j).Perm l := by
  induction l, j using siftUp.induct key with
  | case1 l => simp [siftUp]
  | case2 l j hj c p hp hc hlt ih =>
    rw [siftUp, dif_neg hj, hc, hp]
    show (if key c < key p then siftUp key (listSwap l ((j-1)/2) j) ((j-1)/2) else l).Perm l
    rw [if_pos hlt]
    exact ih.trans (listSwap_perm l ((j-1)/2) j)
  | case3 l j hj c p hp hc hlt =>
    rw [siftUp, dif_neg hj, hc, hp]
    show (if key c < key p then siftUp key (listSwap l ((j-1)/2) j) ((j-1)/2) else l).Perm l
    rw [if_neg hlt]
  | case4 l j hj hcp =>
    rw [siftUp, dif_neg hj]
    rcases h1 : l[j]? with _ | c <;> rcases h2 : l[(j-1)/2]? with _ | p
    · exact List.Perm.refl l
    · exact List.Perm.refl l
    · exact List.Perm.refl l
    · exact (hcp c p h1 h2).elim

theorem heappush_perm (key : α → Int) (l : List α) (x : α) :
    (heappush key l x).Perm (x :: l) :=
  (siftUp_perm key (l ++ [x]) l.length).trans (List.perm_append_singleton x l)

/-- Key comparison between the entries at two positions; holds vacuously when
either position is out of range. -/
def nodeLe (key : α → Int) (l : List α) (i j : Nat) : Prop :=
  ∀ x y, l[i]? = some x → l[j]? = some y → key x ≤ key y

/-- The array-encoded binary min-heap property: the entry at any position
`j > 0` is at least the entry at its parent position `(j-1)/2`. -/
def IsHeap (key : α → Int) (l : List α) : Prop :=
  ∀ j, 0 < j → nodeLe key l ((j-1)/2) j

/-- The heap property with a hole at position `i`: every parent-child pair
whose parent is not `i` is ordered, and the children of `i` are at least the
parent of `i`. The entry at `i` itself is unconstrained. -/
def IsHeapExceptAt (key : α → Int) (l : List α) (i : Nat) : Prop :=
  (∀ j, 0 < j → (j-1)/2 ≠ i → nodeLe key l ((j-1)/2) j) ∧
  (∀ j, (j-1)/2 = i → 0 < i → nodeLe key l ((i-1)/2) j)

theorem isHeap_of_stop (key : α → Int) (l : List α) (i : Nat) (x : α)
    (h : IsHeapExceptAt key l i) (hx : l[i]? = some x)
    (hmin : ∀ o y, (o = 2*i+1 ∨ o = 2*i+2) → l[o]? = some y → key x ≤ key y) :
    IsHeap key l := by
  intro j hj x' y' hx' hy'
  by_cases hp : (j-1)/2 = i
  · have hor : j = 2*i+1 ∨ j = 2*i+2 := by omega
    rw [hp, hx] at hx'
    injection hx' with hxx
    subst hxx
    exact hmin j y' hor hy'
  · exact h.1 j hj hp x' y' hx' hy'

theorem heapExceptAt_swap (key : α → Int) (l : List α) (i c : Nat) (x ck : α)
    (h : IsHeapExceptAt key l i) (hx : l[i]? = some x) (hc : l[c]? = some ck)
    (hor : c = 2*i+1 ∨ c = 2*i+2)
    (hmin : ∀ o y, (o = 2*i+1 ∨ o = 2*i+2) → l[o]? = some y → key ck ≤ key y)
    (hle : key ck ≤ key x) :
    IsHeapExceptAt key (listSwap l i c) c := by
  have hchar := listSwap_getElem? hx hc
  have hic : i < c := by omega
  constructor
  · intro j hj hpc x' y' hx' hy'
    rw [hchar j] at hy'
    rw [hchar ((j-1)/2)] at hx'
    by_cases hjc : j = c
    · have hpi : (j-1)/2 = i := by omega
      rw [if_pos hjc] at hy'
      rw [if_neg (by omega), if_pos hpi] at hx'
      injection hx' with hxx
      injection hy' with hyy
      subst hxx
      subst hyy
      exact hle
    · by_cases hji : j = i
      · have hi0 : 0 < i := by omega
        have hpar : (j-1)/2 = (i-1)/2 := by omega
        rw [if_neg hjc, if_pos hji] at hy'
        rw [if_neg (by omega), if_neg (by omega)] at hx'
        injection hy' with hyy
        subst hyy
        have h2 := h.2 c (by omega) hi0 x' ck
        rw [hpar] at hx'
        exact h2 hx' hc
      · rw [if_neg hjc, if_neg hji] at hy'
        by_cases hpi : (j-1)/2 = i
        · rw [if_neg (by omega), if_pos hpi] at hx'
          injection hx' with hxx
          subst hxx
          exact hmin j y' (by omega) hy'
        · rw [if_neg hpc, if_neg hpi] at hx'
          exact h.1 j hj hpi x' y' hx' hy'
  · intro j hpj hc0 x' y' hx' hy'
    have hci : (c-1)/2 = i := by omega
    have hjc : j ≠ c := by omega
    have hji : j ≠ i := by omega
    rw [hchar ((c-1)/2)] at hx'
    rw [hchar j] at hy'
    rw [if_neg (by omega), if_pos hci] at hx'
    rw [if_neg hjc, if_neg hji] at hy'
    injection hx' with hxx
    subst hxx
    have h1 := h.1 j (by omega) (by omega) ck y'
    rw [hpj] at h1
    exact h1 hc hy'

theorem siftDown_isHeap (key : α → Int) (l : List α) (i : Nat)
    (h : IsHeapExceptAt key l i) : IsHeap key (siftDown key l i) := by
  induction l, i using siftDown.induct key with
  | case1 l i hl =>
    rw [siftDown, hl]
    intro j hj x' y' hx' hy'
    by_cases hp : (j-1)/2 = i
    · have hlen : l.length ≤ 2*i+1 := List.getElem?_eq_none_iff.mp hl
      have : l[j]? = none := List.getElem?_eq_none_iff.mpr (by omega)
      rw [this] at hy'
      exact absurd hy' (by simp)
    · exact h.1 j hj hp x' y' hx' hy'
  | case2 l i lc hl hx =>
    have h1 : 2*i+1 < l.length := (List.getElem?_eq_some.mp hl).1
    have h2 : l.length ≤ i := List.getElem?_eq_none_iff.mp hx
    omega
  | case3 l i lc hl x hx hr hlt ih =>
    rw [siftDown, hl, hx, hr]
    show IsHeap key (if key lc < key x then siftDown key (listSwap l i (2*i+1)) (2*i+1) else l)
    rw [if_pos hlt]
    refine ih (heapExceptAt_swap key l i (2*i+1) x lc h hx hl (Or.inl rfl) ?_ (le_of_lt hlt))
    intro o y ho hy
    rcases ho with ho | ho
    · subst ho
      rw [hl] at hy
      injection hy with hyy
      subst hyy
      exact le_refl _
    · subst ho
      rw [hr] at hy
      exact absurd hy (by simp)
  | case4 l i lc hl x hx hr hlt =>
    rw [siftDown, hl, hx, hr]
    show IsHeap key (if key lc < key x then siftDown key (listSwap l i (2*i+1)) (2*i+1) else l)
    rw [if_neg hlt]
    refine isHeap_of_stop key l i x h hx ?_
    intro o y ho hy
    rcases ho with ho | ho
    · subst ho
      rw [hl] at hy
      injection hy with hyy
      subst hyy
      exact le_of_not_lt hlt
    · subst ho
      rw [hr] at hy
      exact absurd hy (by simp)
  | case5 l i lc hl x hx rc hr hc hlt ih =>
    rw [siftDown, hl, hx, hr]
    show IsHeap key (if key lc < key rc then
        if key lc < key x then siftDown key (listSwap l i (2*i+1)) (2*i+1) else l
      else
        if key rc < key x then siftDown key (listSwap l i (2*i+2)) (2*i+2) else l)
    rw [if_pos hc, if_pos hlt]
    refine ih (heapExceptAt_swap key l i (2*i+1) x lc h hx hl (Or.inl rfl) ?_ (le_of_lt hlt))
    intro o y ho hy
    rcases ho with ho | ho
    · subst ho
      rw [hl] at hy
      injection hy with hyy
      subst hyy
      exact le_refl _
    · subst ho
      rw [hr] at hy
      injection hy with hyy
      subst hyy
      exact le_of_lt hc
  | case6 l i lc hl x hx rc hr hc hlt =>
    rw [siftDown, hl, hx, hr]
    show IsHeap key (if key lc < key rc then
        if key lc < key x then siftDown key (listSwap l i (2*i+1)) (2*i+1) else l
      else
        if key rc < key x then siftDown key (listSwap l i (2*i+2)) (2*i+2) else l)
    rw [if_pos hc, if_neg hlt]
    refine isHeap_of_stop key l i x h hx ?_
    intro o y ho hy
    rcases ho with ho | ho
    · subst ho
      rw [hl] at hy
      injection hy with hyy
      subst hyy
      exact le_of_not_lt hlt
    · subst ho
      rw [hr] at hy
      injection hy with hyy
      subst hyy
      exact le_trans (le_of_not_lt hlt) (le_of_lt hc)
  | case7 l i lc hl x hx rc hr hc hlt ih =>
    rw [siftDown, hl, hx, hr]
    show IsHeap key (if key lc < key rc then
        if key lc < key x then siftDown key (listSwap l i (2*i+1)) (2*i+1) else l
      else
        if key rc < key x then siftDown key (listSwap l i (2*i+2)) (2*i+2) else l)
    rw [if_neg hc, if_pos hlt]
    refine ih (heapExceptAt_swap key l i (2*i+2) x rc h hx hr (Or.inr rfl) ?_ (le_of_lt hlt))
    intro o y ho hy
    rcases ho with ho | ho
    · subst ho
      rw [hl] at hy
      injection hy with hyy
      subst hyy
      exact le_of_not_lt hc
    · subst ho
      rw [hr] at hy
      injection hy with hyy
      subst hyy
      exact le_refl _
  | case8 l i lc hl x hx rc hr hc hlt =>
    rw [siftDown, hl, hx, hr]
    show IsHeap key (if key lc < key rc then
        if key lc < key x then siftDown key (listSwap l i (2*i+1)) (2*i+1) else l
      else
        if key rc < key x then siftDown key (listSwap l i (2*i+2)) (2*i+2) else l)
    rw [if_neg hc, if_neg hlt]
    refine isHeap_of_stop key l i x h hx ?_
    intro o y ho hy
    rcases ho with ho | ho
    · subst ho
      rw [hl] at hy
      injection hy with hyy
      subst hyy
      exact le_trans (le_of_not_lt hlt) (le_of_not_lt hc)
    · subst ho
      rw [hr] at hy
      injection hy with hyy
      subst hyy
      exact le_of_not_lt hlt

theorem isHeap_nil (key : α → Int) : IsHeap key ([] : List α) := by
  intro j hj x y hx hy
  simp at hx

theorem isHeap_singleton (key : α → Int) (x : α) : IsHeap key [x] := by
  intro j hj x' y' hx' hy'
  have : j < 1 := by
    by_contra hc
    rw [List.getElem?_eq_none_iff.mpr (by simp only [List.length_singleton]; omega)] at hy'
    exact absurd hy' (by simp)
  omega

theorem isHeap_root_min (key : α → Int) (l : List α) (h : IsHeap key l) (x : α)
    (hx : l[0]? = some x) : ∀ (j : Nat) (y : α), l[j]? = some y → key x ≤ key y := by
  intro j
  induction j using Nat.strong_induction_on with
  | _ j ih =>
    intro y hy
    rcases Nat.eq_zero_or_pos j with h0 | hj
    · subst h0
      rw [hx] at hy
      injection hy with hyy
      subst hyy
      exact le_refl _
    · have hjl : j < l.length := (List.getElem?_eq_some.mp hy).1
      have hpl : (j-1)/2 < l.length := by omega
      have hp : l[(j-1)/2]? = some (l.get ⟨(j-1)/2, hpl⟩) := List.getElem?_eq_getElem hpl
      exact le_trans (ih ((j-1)/2) (by omega) (l.get ⟨(j-1)/2, hpl⟩) hp)
        (h j hj (l.get ⟨(j-1)/2, hpl⟩) y hp hy)

theorem heappop?_perm (key : α → Int) {l rest : List α} {m : α}
    (h : heappop? key l = some (m, rest)) : l.Perm (m :: rest) := by
  match l with
  | [] => simp [heappop?] at h
  | [x] =>
    simp only [heappop?, Option.some.injEq, Prod.mk.injEq] at h
    obtain ⟨h1, h2⟩ := h
    subst h1
    subst h2
    exact List.Perm.refl _
  | x :: y :: t =>
    simp only [heappop?, Option.some.injEq, Prod.mk.injEq] at h
    obtain ⟨h1, h2⟩ := h
    subst h1
    subst h2
    refine List.Perm.cons x ?_
    have hne : (y :: t) ≠ [] := by simp
    have h3 : (y :: t).dropLast ++ [(y :: t).getLast hne] = y :: t :=
      List.dropLast_append_getLast hne
    have h4 : ((y :: t).getLast hne :: (y :: t).dropLast).Perm (y :: t) := by
      conv_rhs => rw [← h3]
      exact (List.perm_append_singleton _ _).symm
    exact h4.symm.trans (siftDown_perm key _ 0).symm

theorem heappop?_length (key : α → Int) {l rest : List α} {m : α}
    (h : heappop? key l = some (m, rest)) : rest.length + 1 = l.length := by
  have := (heappop?_perm key h).length_eq
  simpa using this.symm

theorem heappop?_mem (key : α → Int) {l rest : List α} {m x : α}
    (h : heappop? key l = some (m, rest)) (hx : x ∈ rest) : x ∈ l :=
  (heappop?_perm key h).mem_iff.mpr (List.mem_cons_of_mem m hx)

/-- The tail positions of the pop body coincide with the tail positions of
the original heap. -/
theorem heappop_body_getElem? (x y : α) (t : List α) (k : Nat) (hk : 0 < k) {v : α}
    (h : (((y :: t).getLast (by simp)) :: (y :: t).dropLast)[k]? = some v) :
    (x :: y :: t)[k]? = some v := by
  match k, hk with
  | k+1, _ =>
    rw [List.getElem?_cons_succ] at h
    rw [List.getElem?_dropLast] at h
    rw [List.getElem?_cons_succ]
    by_cases hlt : k < (y :: t).length - 1
    · rw [if_pos hlt] at h
      exact h
    · rw [if_neg hlt] at h
      exact absurd h (by simp)

theorem heappop?_isHeap (key : α → Int) {l rest : List α} {m : α}
    (hheap : IsHeap key l) (h : heappop? key l = some (m, rest)) : IsHeap key rest := by
  match l with
  | [] => simp [heappop?] at h
  | [x] =>
    simp only [heappop?, Option.some.injEq, Prod.mk.injEq] at h
    rw [← h.2]
    exact isHeap_nil key
  | x :: y :: t =>
    simp only [heappop?, Option.some.injEq, Prod.mk.injEq] at h
    rw [← h.2]
    refine siftDown_isHeap key _ 0 ⟨?_, ?_⟩
    · intro j hj hp0 x' y' hx' hy'
      have hp : 0 < (j-1)/2 := Nat.pos_of_ne_zero hp0
      have hx2 := heappop_body_getElem? x y t ((j-1)/2) hp hx'
      have hy2 := heappop_body_getElem? x y t j hj hy'
      exact hheap j hj x' y' hx2 hy2
    · intro j hpj h0
      exact absurd h0 (lt_irrefl 0)

theorem heappop?_min (key : α → Int) {l rest : List α} {m : α}
    (hheap : IsHeap key l) (h : heappop? key l = some (m, rest)) :
    ∀ z ∈ l, key m ≤ key z := by
  intro z hz
  have hm : l[0]? = some m := by
    match l with
    | [] => simp [heappop?] at h
    | [x] =>
      simp only [heappop?, Option.some.injEq, Prod.mk.injEq] at h
      rw [← h.1]
      rfl
    | x :: y :: t =>
      simp only [heappop?, Option.some.injEq, Prod.mk.injEq] at h
      rw [← h.1]
      rfl
  obtain ⟨n, hn⟩ := List.getElem?_of_mem hz
  exact isHeap_root_min key l hheap m hm n z hn

/-- The heap key used by all message heaps: `SqsMessage.__lt__` and friends
compare by `priority` only. -/
def priorityKey : SqsMessage → Int := SqsMessage.priority

/-- Models `SqsQueue.remove_expired_messages_from_heap`: pop entries from the
front of the heap while the root was created at or before
`now - message_retention_period`; returns the expired entries in pop order
together with the remaining heap (the Python version mutates the heap in
place and returns only the expired list). -/
def remove_expired_messages_from_heap (now message_retention_period : Int)
    (heap : List SqsMessage) : List SqsMessage × List SqsMessage :=
  match hpop : heappop? priorityKey heap with
  | none => ([], heap)
  | some (m, rest) =>
    if now - message_retention_period < m.created then ([], heap)
    else
      let r := remove_expired_messages_from_heap now message_retention_period rest
      (m :: r.1, r.2)
termination_by heap.length
decreasing_by
  have := heappop?_length priorityKey hpop
  omega

theorem heappop?_eq_none (key : α → Int) {l : List α} (h : heappop? key l = none) :
    l = [] := by
  match l with
  | [] => rfl
  | [x] => simp [heappop?] at h
  | x :: y :: t => simp [heappop?] at h

theorem remove_expired_none (now retention : Int) (heap : List SqsMessage)
    (hpop : heappop? priorityKey heap = none) :
    remove_expired_messages_from_heap now retention heap = ([], heap) := by
  rw [remove_expired_messages_from_heap, hpop]

theorem remove_expired_break (now retention : Int) (heap : List SqsMessage)
    {m : SqsMessage} {rest : List SqsMessage}
    (hpop : heappop? priorityKey heap = some (m, rest))
    (hlt : now - retention < m.created) :
    remove_expired_messages_from_heap now retention heap = ([], heap) := by
  rw [remove_expired_messages_from_heap, hpop]
  show (if now - retention < m.created then (([] : List SqsMessage), heap)
    else (m :: (remove_expired_messages_from_heap now retention rest).1,
      (remove_expired_messages_from_heap now retention rest).2)) = ([], heap)
  rw [if_pos hlt]

theorem remove_expired_pop (now retention : Int) (heap : List SqsMessage)
    {m : SqsMessage} {rest : List SqsMessage}
    (hpop : heappop? priorityKey heap = some (m, rest))
    (hnlt : ¬ now - retention < m.created) :
    remove_expired_messages_from_heap now retention heap =
      (m :: (remove_expired_messages_from_heap now retention rest).1,
        (remove_expired_messages_from_heap now retention rest).2) := by
  rw [remove_expired_messages_from_heap, hpop]
  show (if now - retention < m.created then (([] : List SqsMessage), heap)
    else (m :: (remove_expired_messages_from_heap now retention rest).1,
      (remove_expired_messages_from_heap now retention rest).2)) = _
  rw [if_neg hnlt]

theorem remove_expired_correct (now retention : Int) (heap : List SqsMessage) :
    IsHeap priorityKey heap →
    (∀ m ∈ heap, m.priority = m.created) →
    (∀ m ∈ (remove_expired_messages_from_heap now retention heap).1,
        m.created ≤ now - retention) ∧
    (∀ m ∈ (remove_expired_messages_from_heap now retention heap).2,
        now - retention < m.created) ∧
    heap.Perm ((remove_expired_messages_from_heap now retention heap).1 ++
        (remove_expired_messages_from_heap now retention heap).2) ∧
    IsHeap priorityKey (remove_expired_messages_from_heap now retention heap).2 := by
  induction heap using remove_expired_messages_from_heap.induct now retention with
  | case1 heap hpop =>
    intro hheap hpc
    have hnil := heappop?_eq_none priorityKey hpop
    subst hnil
    rw [remove_expired_none now retention _ hpop]
    exact ⟨by simp, by simp, by simp, hheap⟩
  | case2 heap m rest hpop hlt =>
    intro hheap hpc
    rw [remove_expired_break now retention heap hpop hlt]
    have hmem : m ∈ heap :=
      (heappop?_perm priorityKey hpop).mem_iff.mpr (List.mem_cons_self m rest)
    refine ⟨by simp, ?_, by simp, hheap⟩
    intro z hz
    have h1 := heappop?_min priorityKey hheap hpop z hz
    have h2 := hpc m hmem
    have h3 := hpc z hz
    simp only [priorityKey] at h1
    omega
  | case3 heap m rest hpop hnlt ih =>
    intro hheap hpc
    rw [remove_expired_pop now retention heap hpop hnlt]
    have hperm := heappop?_perm priorityKey hpop
    have hrest_heap : IsHeap priorityKey rest := heappop?_isHeap priorityKey hheap hpop
    have hrest_pc : ∀ z ∈ rest, z.priority = z.created := fun z hz =>
      hpc z (heappop?_mem priorityKey hpop hz)
    obtain ⟨ih1, ih2, ih3, ih4⟩ := ih hrest_heap hrest_pc
    refine ⟨?_, ih2, ?_, ih4⟩
    · intro z hz
      rcases List.mem_cons.mp hz with rfl | hz2
      · exact le_of_not_lt hnlt
      · exact ih1 z hz2
    · exact hperm.trans (List.Perm.cons m ih3)

/-! ### Dicts and sets

Python dicts become association lists; `alSet` keeps the position of an
existing key and appends new keys, matching dict insertion-order semantics.
Python sets of messages compare by message id (`SqsMessage.__eq__`), sets of
groups by group id (`MessageGroup.__eq__`); group membership is therefore
keyed directly by the group id. -/

def alGet [DecidableEq κ] (l : List (κ × ν)) (k : κ) : Option ν :=
  match l with
  | [] => none
  | (k2, v) :: rest => if k2 = k then some v else alGet rest k

def alSet [DecidableEq κ] (l : List (κ × ν)) (k : κ) (v : ν) : List (κ × ν) :=
  match l with
  | [] => [(k, v)]
  | (k2, v2) :: rest => if k2 = k then (k, v) :: rest else (k2, v2) :: alSet rest k v

def alRemove [DecidableEq κ] (l : List (κ × ν)) (k : κ) : List (κ × ν) :=
  l.filter (fun p => decide (p.1 ≠ k))

/-- Membership of a message in a Python set of messages (keyed by id). -/
def memById (l : List SqsMessage) (mid : String) : Bool :=
  l.any (fun m => m.messageId = mid)

/-- `set.add` for message sets: a no-op when a message with the same id is
already present. -/
def msgSetAdd (l : List SqsMessage) (m : SqsMessage) : List SqsMessage :=
  if memById l m.messageId then l else l ++ [m]

/-- `set.remove`/`discard` for message sets, keyed by id. -/
def msgSetRemove (l : List SqsMessage) (mid : String) : List SqsMessage :=
  l.filter (fun z => decide (z.messageId ≠ mid))

/-- Python truthiness of an optional string (`None` and `""` are falsy). -/
def strFalsy : Option String → Bool
  | none => true
  | some s => s = ""

/-- Python truthiness of an optional integer (`None` and `0` are falsy). -/
def intTruthy : Option Int → Bool
  | none => false
  | some d => d ≠ 0

/-- Models `SqsMessage.is_delayed` at the instant `now`. -/
def SqsMessage.is_delayed (m : SqsMessage) (now : Int) : Bool :=
  match m.delaySeconds with
  | none => false
  | some d => now ≤ m.created + d

/-- The incoming `Message` dict handed to `put` by the provider: the fields
the engine reads before wrapping it into an `SqsMessage`. -/
structure Message where
  messageId : String
  body : String
deriving DecidableEq

/-- Embeds the state of a `FifoQueue` object together with the queue
attributes the modelled operations read. `messageGroups` maps a group id to
the heap of that `MessageGroup`; `messageGroupQueue` is the FIFO
`InterruptibleQueue` of ready groups, and `inflightGroups` the set of group
ids currently held by a consumer. `maxReceiveCount` is the redrive-policy
attribute (`None` when no redrive policy is set; the provider validates
configured values into 1..1000). `sequenceCounter` stands in for the global
monotonic sequence generator of `utils.global_message_sequence`. -/
structure FifoQueue where
  queueArn : String
  delayed : List SqsMessage
  inflight : List SqsMessage
  receipts : List (ReceiptHandle × SqsMessage)
  messageGroups : List (Option String × List SqsMessage)
  inflightGroups : List (Option String)
  messageGroupQueue : List (Option String)
  deduplication : List (String × SqsMessage)
  deduplicationScope : String
  contentBasedDeduplication : Bool
  visibilityTimeoutAttr : Int
  delaySecondsAttr : Int
  messageRetentionPeriod : Int
  maxReceiveCount : Option Nat
  sequenceCounter : Nat
deriving DecidableEq

/-- Models `FifoQueue.get_message_group`: the lazy factory returns the
existing group heap, or registers and returns a fresh empty one. -/
def FifoQueue.get_message_group (q : FifoQueue) (gid : Option String) :
    FifoQueue × List SqsMessage :=
  ((if (alGet q.messageGroups gid).isSome then q
    else { q with messageGroups := alSet q.messageGroups gid [] }),
   (alGet q.messageGroups gid).getD [])

/-- Models `FifoQueue._put_message`: push the message onto its group heap;
then make the group ready (push onto `message_group_queue`, dropping it from
`inflight_groups`) unless a fresh message (`receive_count < 1`) would
reactivate a group that is currently inflight; a group that was non-empty and
not inflight is already queued, so nothing further happens. -/
def FifoQueue._put_message (q : FifoQueue) (message : SqsMessage) : FifoQueue :=
  let gid := message.messageGroupId
  let gm := q.get_message_group gid
  let q1 := gm.1
  let previously_empty := gm.2.isEmpty
  let q2 := { q1 with messageGroups := alSet q1.messageGroups gid (heappush priorityKey gm.2 message) }
  if message.receiveCount < 1 ∧ gid ∈ q2.inflightGroups then q2
  else if gid ∈ q2.inflightGroups then
    { q2 with inflightGroups := q2.inflightGroups.erase gid,
              messageGroupQueue := q2.messageGroupQueue ++ [gid] }
  else if previously_empty then
    { q2 with messageGroupQueue := q2.messageGroupQueue ++ [gid] }
  else q2

/-- Models `FifoQueue.put`. The SHA-256 of `hashlib` used by content-based
deduplication is abstracted into the `contentHash` parameter, and
`is_message_deduplication_id_required` (in `sqs/utils.py`, not part of the
sources here) is modelled from the spec as the negation of the
`ContentBasedDeduplication` attribute. Returns the new queue state together
with the `SqsMessage` visible to the caller. -/
def FifoQueue.put (q : FifoQueue) (contentHash : String → String) (now : Int)
    (message : Message) (visibility_timeout : Option Int)
    (message_deduplication_id : Option String) (message_group_id : Option String)
    (delay_seconds : Option Int) : Except SqsError (FifoQueue × SqsMessage) :=
  if intTruthy delay_seconds then
    .error (.invalidParameterValue
      "Value for parameter DelaySeconds is invalid. Reason: The request include parameter that is not valid for this queue type.")
  else if strFalsy message_group_id then
    .error (.missingRequiredParameter
      "The request must contain the parameter MessageGroupId.")
  else
    let dedup_id :=
      if strFalsy message_deduplication_id && q.contentBasedDeduplication then
        some (contentHash message.body)
      else message_deduplication_id
    if strFalsy dedup_id then
      .error (.invalidParameterValue
        "The queue should either have ContentBasedDeduplication enabled or MessageDeduplicationId provided explicitly")
    else
      let sn := q.sequenceCounter
      let q := { q with sequenceCounter := q.sequenceCounter + 1 }
      let fifo_message : SqsMessage := {
        messageId := message.messageId
        body := message.body
        created := now
        priority := now
        receiveCount := 0
        approximateReceiveCount := 0
        visibilityTimeout :=
          match visibility_timeout with
          | some v => v
          | none => q.visibilityTimeoutAttr
        visibilityDeadline := none
        delaySeconds := some q.delaySecondsAttr
        lastReceived := none
        firstReceived := none
        deleted := false
        receiptHandles := []
        messageGroupId := message_group_id
        messageDeduplicationId := dedup_id
        sequenceNumber := some sn }
      match alGet q.deduplication (dedup_id.getD "") with
      | some original_message =>
        if original_message.priority + DEDUPLICATION_INTERVAL_IN_SEC > fifo_message.priority
            ∧ (¬ q.deduplicationScope = "messageGroup"
               ∨ fifo_message.messageGroupId = original_message.messageGroupId) then
          .ok (q, { fifo_message with messageId := original_message.messageId })
        else
          let q2 := if fifo_message.is_delayed now then
              { q with delayed := msgSetAdd q.delayed fifo_message }
            else q._put_message fifo_message
          .ok ({ q2 with deduplication := alSet q2.deduplication (dedup_id.getD "") fifo_message },
            fifo_message)
      | none =>
        let q2 := if fifo_message.is_delayed now then
            { q with delayed := msgSetAdd q.delayed fifo_message }
          else q._put_message fifo_message
        .ok ({ q2 with deduplication := alSet q2.deduplication (dedup_id.getD "") fifo_message },
          fifo_message)

/-- Models `FifoQueue.clear` (purge): empties the base structures and all
FIFO-specific structures including the deduplication table. -/
def FifoQueue.clear (q : FifoQueue) : FifoQueue :=
  { q with inflight := [], delayed := [], receipts := [],
           messageGroups := [], inflightGroups := [], messageGroupQueue := [],
           deduplication := [] }

/-- Python `set.add` for sets keyed by the element itself (group ids). -/
def setAdd [DecidableEq κ] (l : List κ) (k : κ) : List κ :=
  if k ∈ l then l else l ++ [k]

/-- Removes the first list entry with the given message id
(`list.remove(message)` under id-based equality). -/
def removeFirstById (l : List SqsMessage) (mid : String) : List SqsMessage :=
  l.eraseP (fun z => decide (z.messageId = mid))

/-- Replaces every stored copy of the message (same id) by the given record:
the embedding of an in-place mutation of a shared Python object. -/
def syncMessageList (l : List SqsMessage) (m : SqsMessage) : List SqsMessage :=
  l.map (fun z => if z.messageId = m.messageId then m else z)

def syncReceipts (r : List (ReceiptHandle × SqsMessage)) (m : SqsMessage) :
    List (ReceiptHandle × SqsMessage) :=
  r.map (fun p => if p.2.messageId = m.messageId then (p.1, m) else p)

/-- Models `SqsQueue.create_receipt_handle` / `encode_receipt_handle`: the
handle carries the queue arn, the message id and `message.last_received`. -/
def create_receipt_handle (arn : String) (m : SqsMessage) : ReceiptHandle :=
  ⟨arn, m.messageId, m.lastReceived.getD 0⟩

/-- The receipt-handle registration applied to one received message:
`message.receipt_handles.add(handle)` with the freshly minted handle. -/
def addHandle (arn : String) (m0 : SqsMessage) : SqsMessage :=
  { m0 with receiptHandles :=
    if create_receipt_handle arn m0 ∈ m0.receiptHandles then m0.receiptHandles
    else m0.receiptHandles ++ [create_receipt_handle arn m0] }

/-- The metadata update applied to a message accepted by the collection
loop: bump `receive_count`, apply the resolved visibility timeout (deadline
`now + vt`), stamp `last_received` and a first-received time. -/
def collectUpdate (vt now : Int) (message : SqsMessage) : SqsMessage :=
  { message with
    receiveCount := message.receiveCount + 1,
    visibilityTimeout := vt,
    visibilityDeadline := some (now + vt),
    lastReceived := some now,
    firstReceived := some (message.firstReceived.getD now) }

/-- A successful message additionally gets `ApproximateReceiveCount` bumped. -/
def collectUpdate2 (vt now : Int) (message : SqsMessage) : SqsMessage :=
  { collectUpdate vt now message with
    approximateReceiveCount := (collectUpdate vt now message).approximateReceiveCount + 1 }

/-- Truthiness of `max_receive_count and receive_count > max_receive_count`. -/
def maxRcExceeded (maxRc : Option Nat) (rc : Nat) : Bool :=
  match maxRc with
  | some k => decide (0 < k) && decide (k < rc)
  | none => false

/-- The outcome of the message-collection loop of a `receive` call. -/
structure CollectResult where
  heap : List SqsMessage
  successful : List SqsMessage
  dead_letter_messages : List SqsMessage
deriving DecidableEq

/-- Models the per-message collection loop shared verbatim by
`StandardQueue.receive` (popping `visible`) and the inner group loop of
`FifoQueue.receive` (popping the group heap): pop from the heap; skip
messages flagged deleted; bump `receive_count`, apply the resolved
visibility timeout and receive timestamps; route the message to
`dead_letter_messages` when a truthy `max_receive_count` is exceeded by the
incremented count, otherwise append it to `successful` (also bumping
`ApproximateReceiveCount`) and stop once `num_messages` successes are
collected; also stop when the heap is exhausted (`Empty`/`IndexError`). -/
def collectMessages (maxRc : Option Nat) (vt now : Int) (num : Nat)
    (heap succ dlq : List SqsMessage) : CollectResult :=
  match hpop : heappop? priorityKey heap with
  | none => ⟨heap, succ, dlq⟩
  | some (message, rest) =>
    if message.deleted then collectMessages maxRc vt now num rest succ dlq
    else
      let m := collectUpdate vt now message
      if maxRcExceeded maxRc m.receiveCount then
        collectMessages maxRc vt now num rest succ (dlq ++ [m])
      else
        let m2 := { m with approximateReceiveCount := m.approximateReceiveCount + 1 }
        if succ.length + 1 = num then ⟨rest, succ ++ [m2], dlq⟩
        else collectMessages maxRc vt now num rest (succ ++ [m2]) dlq
termination_by heap.length
decreasing_by
  all_goals
    have := heappop?_length priorityKey hpop
    omega

/-- Resolution of the effective visibility timeout of a `receive` call: the
explicit argument wins, else the queue attribute. -/
def resolveVt (visibility_timeout : Option Int) (attr : Int) : Int :=
  match visibility_timeout with
  | some v => v
  | none => attr

/-- Models `ReceiveMessageResult` (the dead-letter list needs no handles). -/
structure ReceiveMessageResult where
  successful : List SqsMessage
  receipt_handles : List ReceiptHandle
  dead_letter_messages : List SqsMessage
deriving DecidableEq

/-- Embeds the state of a `StandardQueue` object: `visible` is the heap list
behind the `InterruptiblePriorityQueue`. -/
structure StandardQueue where
  queueArn : String
  visible : List SqsMessage
  delayed : List SqsMessage
  inflight : List SqsMessage
  receipts : List (ReceiptHandle × SqsMessage)
  visibilityTimeoutAttr : Int
  delaySecondsAttr : Int
  messageRetentionPeriod : Int
  maxReceiveCount : Option Nat
deriving DecidableEq

def StandardQueue.syncMessage (q : StandardQueue) (m : SqsMessage) : StandardQueue :=
  { q with visible := syncMessageList q.visible m,
           delayed := syncMessageList q.delayed m,
           inflight := syncMessageList q.inflight m,
           receipts := syncReceipts q.receipts m }

/-- The receipt-handle and visibility bookkeeping applied to one successful
message after the collection loop of `StandardQueue.receive`: mint a handle,
record it on the message and in `receipts`, then either push the message
straight back to `visible` (timeout zero) or add it to `inflight`. -/
def StandardQueue.registerOne (q : StandardQueue) (m0 : SqsMessage) :
    StandardQueue × SqsMessage × ReceiptHandle :=
  let handle := create_receipt_handle q.queueArn m0
  let m := addHandle q.queueArn m0
  let q := q.syncMessage m
  let q := { q with receipts := alSet q.receipts handle m }
  if m.visibilityTimeout = 0 then
    ({ q with visible := heappush priorityKey q.visible m }, m, handle)
  else
    ({ q with inflight := msgSetAdd q.inflight m }, m, handle)

def StandardQueue.registerAll (q : StandardQueue) :
    List SqsMessage → StandardQueue × List SqsMessage × List ReceiptHandle
  | [] => (q, [], [])
  | m :: ms =>
    let r1 := q.registerOne m
    let r2 := r1.1.registerAll ms
    (r2.1, r1.2.1 :: r2.2.1, r1.2.2 :: r2.2.2)

/-- Models `StandardQueue.receive` at the instant `now`. The wait/blocking
parameters only govern how long the loop blocks on an empty heap; in this
instantaneous model the loop simply stops when the heap is exhausted, so
they do not appear. Returns the new state and the result object. -/
def StandardQueue.receive (q : StandardQueue) (num_messages : Nat)
    (visibility_timeout : Option Int) (now : Int) :
    StandardQueue × ReceiveMessageResult :=
  let vt := resolveVt visibility_timeout q.visibilityTimeoutAttr
  let c := collectMessages q.maxReceiveCount vt now num_messages q.visible [] []
  let q := { q with visible := c.heap }
  let q := c.dead_letter_messages.foldl StandardQueue.syncMessage q
  let r := q.registerAll c.successful
  (r.1, ⟨r.2.1, r.2.2, c.dead_letter_messages⟩)

def FifoQueue.syncMessage (q : FifoQueue) (m : SqsMessage) : FifoQueue :=
  { q with delayed := syncMessageList q.delayed m,
           inflight := syncMessageList q.inflight m,
           receipts := syncReceipts q.receipts m,
           messageGroups := q.messageGroups.map (fun p => (p.1, syncMessageList p.2 m)),
           deduplication := q.deduplication.map
             (fun p => if p.2.messageId = m.messageId then (p.1, m) else p) }

/-- Models the outer group loop of `FifoQueue.receive`: pop ready groups from
`message_group_queue`; silently drop groups that turn out empty; mark a
non-empty group inflight and run the shared collection loop on its heap;
continue with further groups (cross-group fill) until `num_messages`
successes are collected or no ready group is left. -/
def FifoQueue.collectFromGroups (q : FifoQueue) (maxRc : Option Nat) (vt now : Int)
    (num : Nat) (succ dlq : List SqsMessage) :
    FifoQueue × List SqsMessage × List SqsMessage :=
  match hq : q.messageGroupQueue with
  | [] => (q, succ, dlq)
  | gid :: queueRest =>
    let q1 := { q with messageGroupQueue := queueRest }
    let msgs := (alGet q1.messageGroups gid).getD []
    if msgs.isEmpty then q1.collectFromGroups maxRc vt now num succ dlq
    else
      let q2 := { q1 with inflightGroups := setAdd q1.inflightGroups gid }
      let c := collectMessages maxRc vt now num msgs succ dlq
      let q3 := { q2 with messageGroups := alSet q2.messageGroups gid c.heap }
      if c.successful.length = num then (q3, c.successful, c.dead_letter_messages)
      else q3.collectFromGroups maxRc vt now num c.successful c.dead_letter_messages
termination_by q.messageGroupQueue.length
decreasing_by
  all_goals simp [hq]

/-- The post-loop bookkeeping of `FifoQueue.receive` for one successful
message: mint and record the receipt handle, then either re-run
`_put_message` (timeout zero, keeping the group bookkeeping consistent) or
add the message to `inflight`. -/
def FifoQueue.registerOne (q : FifoQueue) (m0 : SqsMessage) :
    FifoQueue × SqsMessage × ReceiptHandle :=
  let handle := create_receipt_handle q.queueArn m0
  let m := addHandle q.queueArn m0
  let q := q.syncMessage m
  let q := { q with receipts := alSet q.receipts handle m }
  if m.visibilityTimeout = 0 then
    (q._put_message m, m, handle)
  else
    ({ q with inflight := msgSetAdd q.inflight m }, m, handle)

def FifoQueue.registerAll (q : FifoQueue) :
    List SqsMessage → FifoQueue × List SqsMessage × List ReceiptHandle
  | [] => (q, [], [])
  | m :: ms =>
    let r1 := q.registerOne m
    let r2 := r1.1.registerAll ms
    (r2.1, r1.2.1 :: r2.2.1, r1.2.2 :: r2.2.2)

/-- Models `FifoQueue.receive` at the instant `now` (wait/blocking parameters
omitted as in `StandardQueue.receive`). -/
def FifoQueue.receive (q : FifoQueue) (num_messages : Nat)
    (visibility_timeout : Option Int) (now : Int) :
    FifoQueue × ReceiveMessageResult :=
  let vt := resolveVt visibility_timeout q.visibilityTimeoutAttr
  let c := q.collectFromGroups q.maxReceiveCount vt now num_messages [] []
  let q := c.1
  let q := c.2.2.foldl FifoQueue.syncMessage q
  let r := q.registerAll c.2.1
  (r.1, ⟨r.2.1, r.2.2, c.2.2⟩)

/-! ### Deleting messages (`SqsQueue.remove` and hooks) -/

/-- Models `StandardQueue._on_remove_message`: drop the message from
`inflight`; when it is not inflight (deletion raced with a visibility
requeue), remove it from the `visible` heap list and re-heapify; when it is
in neither place, do nothing. -/
def StandardQueue.on_remove_message (q : StandardQueue) (message : SqsMessage) :
    StandardQueue :=
  if memById q.inflight message.messageId then
    { q with inflight := msgSetRemove q.inflight message.messageId }
  else if memById q.visible message.messageId then
    { q with visible := heapifyList priorityKey (removeFirstById q.visible message.messageId) }
  else q

/-- Models `SqsQueue.remove` as inherited by `StandardQueue`: validate that
the handle belongs to this queue; unknown handles are a silent no-op; a known
handle marks the message deleted, drops every handle of the message from
`receipts`, clears the handle set on the message and runs the removal hook.
The standard `_pre_delete_checks` is a no-op. -/
def StandardQueue.remove (q : StandardQueue) (receipt_handle : ReceiptHandle) :
    Except SqsError StandardQueue :=
  if ¬ q.queueArn = receipt_handle.queueArn then
    .error (.receiptHandleIsInvalid
      "The input receipt handle is not a valid receipt handle.")
  else
    match alGet q.receipts receipt_handle with
    | none => .ok q
    | some standard_message =>
      let m := { standard_message with deleted := true }
      let q := q.syncMessage m
      let q := { q with receipts :=
        m.receiptHandles.foldl (fun r h => alRemove r h) q.receipts }
      let m2 := { m with receiptHandles := [] }
      let q := q.syncMessage m2
      .ok (q.on_remove_message m2)

/-- Models `FifoQueue._pre_delete_checks`: reject the delete when the
handle-recorded receive time is older than the visibility timeout of the
message. -/
def FifoQueue._pre_delete_checks (message : SqsMessage) (receipt_handle : ReceiptHandle)
    (now : Int) : Except SqsError Unit :=
  if now - receipt_handle.lastReceived > message.visibilityTimeout then
    .error (.invalidParameterValue
      "Value for parameter ReceiptHandle is invalid. Reason: The receipt handle has expired.")
  else .ok ()

/-- Models `FifoQueue.update_message_group_visibility`: release an inflight
group when no inflight message of that group remains, re-queueing it if it
still holds messages. -/
def FifoQueue.update_message_group_visibility (q : FifoQueue) (gid : Option String) :
    FifoQueue :=
  if gid ∈ q.inflightGroups then
    if q.inflight.any (fun m => m.messageGroupId = gid) then q
    else
      let q := { q with inflightGroups := q.inflightGroups.erase gid }
      if ((alGet q.messageGroups gid).getD []).isEmpty then q
      else { q with messageGroupQueue := q.messageGroupQueue ++ [gid] }
  else q

/-- Models `FifoQueue._on_remove_message`: drop the message from `inflight`
(a missing entry is ignored) and update the visibility of its group. -/
def FifoQueue.on_remove_message (q : FifoQueue) (message : SqsMessage) : FifoQueue :=
  let q := (q.get_message_group message.messageGroupId).1
  let q := { q with inflight := msgSetRemove q.inflight message.messageId }
  q.update_message_group_visibility message.messageGroupId

/-- Models `FifoQueue.remove` (which revalidates the handle and then runs
`SqsQueue.remove`, whose pre-delete check is `FifoQueue._pre_delete_checks`
at the current time). -/
def FifoQueue.remove (q : FifoQueue) (receipt_handle : ReceiptHandle) (now : Int) :
    Except SqsError FifoQueue :=
  if ¬ q.queueArn = receipt_handle.queueArn then
    .error (.receiptHandleIsInvalid
      "The input receipt handle is not a valid receipt handle.")
  else
    match alGet q.receipts receipt_handle with
    | none => .ok q
    | some message =>
      match FifoQueue._pre_delete_checks message receipt_handle now with
      | .error e => .error e
      | .ok _ =>
        let m := { message with deleted := true }
        let q := q.syncMessage m
        let q := { q with receipts :=
          m.receiptHandles.foldl (fun r h => alRemove r h) q.receipts }
        let m2 := { m with receiptHandles := [] }
        let q := q.syncMessage m2
        .ok (q.on_remove_message m2)

/-! ### Message move tasks (`MessageMoveTaskManager` in `provider.py`) -/

/-- The `MessageMoveTaskStatus` constants. -/
def MessageMoveTaskStatus.CREATED : String := "CREATED"

def MessageMoveTaskStatus.RUNNING : String := "RUNNING"

def MessageMoveTaskStatus.COMPLETED : String := "COMPLETED"

def MessageMoveTaskStatus.CANCELLING : String := "CANCELLING"

def MessageMoveTaskStatus.CANCELLED : String := "CANCELLED"

def MessageMoveTaskStatus.FAILED : String := "FAILED"

/-- The dynamic fields of a `MessageMoveTask` that the worker loop touches.
`cancelEventSet` embeds `cancel_event.is_set()` as observed by the loop (the
asynchronous flip of the event is not modelled; the value is fixed for the
duration of one `_run`). -/
structure MessageMoveTask where
  status : String
  failureReason : Option String
  approximateNumberOfMessagesMoved : Nat
  cancelEventSet : Bool
deriving DecidableEq

/-- An exception as classified by `_fail_task`: a `ServiceException` carries
an error code, any other exception only its class name. -/
inductive TaskException where
  | serviceException (code : String)
  | otherException (className : String)
deriving DecidableEq

/-- Models `MessageMoveTaskManager._fail_task`: mark the task FAILED and
record the classified failure reason. -/
def fail_task (task : MessageMoveTask) (reason : TaskException) : MessageMoveTask :=
  { task with
    status := MessageMoveTaskStatus.FAILED,
    failureReason := some (match reason with
      | .serviceException code => code
      | .otherException className => className) }

/-- One iteration outcome of the worker loop of
`MessageMoveTaskManager._run`, abstracting the interactions with the source
and destination queues: the receive/put/remove sequence either raises, or
the source receive yields a dead-letter result, or the source is empty, or
exactly one message is moved. -/
inductive MoveIteration where
  | raises (e : TaskException)
  | deadLetterResult
  | sourceEmpty
  | moved
deriving DecidableEq

/-- Models the worker loop of `MessageMoveTaskManager._run` over a trace of
iteration outcomes. A set cancel event stops the loop at its top (CANCELLED
in the else-branch); an exception anywhere in the body - including the
`NotImplementedError` raised on a dead-letter receive result - runs
`_fail_task` and processes nothing further; an empty source breaks the loop
and the task completes; a moved message bumps the moved counter. A trace
that runs out is read as the source staying empty. -/
def run_move_task (task : MessageMoveTask) : List MoveIteration → MessageMoveTask
  | [] =>
    if task.cancelEventSet then { task with status := MessageMoveTaskStatus.CANCELLED }
    else { task with status := MessageMoveTaskStatus.COMPLETED }
  | step :: rest =>
    if task.cancelEventSet then { task with status := MessageMoveTaskStatus.CANCELLED }
    else
      match step with
      | .raises e => fail_task task e
      | .deadLetterResult => fail_task task (.otherException "NotImplementedError")
      | .sourceEmpty => { task with status := MessageMoveTaskStatus.COMPLETED }
      | .moved =>
        run_move_task
          { task with approximateNumberOfMessagesMoved :=
              task.approximateNumberOfMessagesMoved + 1 } rest

/-! ### Association-list and set lemmas -/

theorem alGet_alSet_self [DecidableEq κ] (l : List (κ × ν)) (k : κ) (v : ν) :
    alGet (alSet l k v) k = some v := by
  induction l with
  | nil => simp [alGet, alSet]
  | cons p rest ih =>
    obtain ⟨k2, v2⟩ := p
    by_cases h : k2 = k
    · simp [alGet, alSet, h]
    · simp [alGet, alSet, h, ih]

/-- The state common to every branch of `FifoQueue._put_message`: the group
registered (if needed) and the message pushed onto the group heap. -/
def putMessageBase (q : FifoQueue) (m : SqsMessage) : FifoQueue :=
  let groups1 :=
    if (alGet q.messageGroups m.messageGroupId).isSome then q.messageGroups
    else alSet q.messageGroups m.messageGroupId []
  let pushed := heappush priorityKey ((alGet q.messageGroups m.messageGroupId).getD []) m
  { q with messageGroups := alSet groups1 m.messageGroupId pushed }

/-- Characterization of `FifoQueue._put_message`: the fields it can touch,
as a function of the branch taken. -/
theorem put_message_eq (q : FifoQueue) (m : SqsMessage) :
    q._put_message m =
      (if m.receiveCount < 1 ∧ m.messageGroupId ∈ q.inflightGroups then putMessageBase q m
       else if m.messageGroupId ∈ q.inflightGroups then
         { (putMessageBase q m) with
             inflightGroups := q.inflightGroups.erase m.messageGroupId,
             messageGroupQueue := q.messageGroupQueue ++ [m.messageGroupId] }
       else if ((alGet q.messageGroups m.messageGroupId).getD []).isEmpty then
         { (putMessageBase q m) with
             messageGroupQueue := q.messageGroupQueue ++ [m.messageGroupId] }
       else putMessageBase q m) := by
  by_cases h : (alGet q.messageGroups m.messageGroupId).isSome <;>
    simp only [FifoQueue._put_message, FifoQueue.get_message_group, putMessageBase, h,
      if_true, if_false, Bool.false_eq_true]

theorem put_message_groups_get (q : FifoQueue) (m : SqsMessage) :
    alGet (q._put_message m).messageGroups m.messageGroupId =
      some (heappush priorityKey ((alGet q.messageGroups m.messageGroupId).getD []) m) := by
  rw [put_message_eq]
  split
  · exact alGet_alSet_self _ _ _
  · split
    · exact alGet_alSet_self _ _ _
    · split
      · exact alGet_alSet_self _ _ _
      · exact alGet_alSet_self _ _ _

theorem put_message_groups_get2 (q : FifoQueue) (m : SqsMessage) (gid : Option String)
    (hgid : m.messageGroupId = gid) :
    alGet (q._put_message m).messageGroups gid =
      some (heappush priorityKey ((alGet q.messageGroups gid).getD []) m) := by
  subst hgid
  exact put_message_groups_get q m

/-- C1: `FifoQueue._put_message` always pushes the message onto its group
heap, and then makes the group ready (appends it to `message_group_queue`
and takes it out of `inflight_groups`) exactly in the cases the claim
describes: the group was empty before the push, or the message is a
redelivery (`receive_count >= 1`) of a group that is currently inflight; a
freshly arrived message (`receive_count == 0`) never reactivates an
inflight group, which then stays out of `message_group_queue`. The `Nodup`
hypothesis is the Python set invariant on `inflight_groups`. -/
theorem fifo_put_message_readies_group (q : FifoQueue) (m : SqsMessage)
    (hnd : q.inflightGroups.Nodup) :
    ((alGet (q._put_message m).messageGroups m.messageGroupId).getD []).Perm
        (m :: (alGet q.messageGroups m.messageGroupId).getD []) ∧
    (((alGet q.messageGroups m.messageGroupId).getD [] = [] ∨
        (m.messageGroupId ∈ q.inflightGroups ∧ 1 ≤ m.receiveCount)) →
      ¬ (m.messageGroupId ∈ q.inflightGroups ∧ m.receiveCount = 0) →
      (q._put_message m).messageGroupQueue = q.messageGroupQueue ++ [m.messageGroupId] ∧
        m.messageGroupId ∉ (q._put_message m).inflightGroups) ∧
    ((m.messageGroupId ∈ q.inflightGroups ∧ m.receiveCount = 0) →
      (q._put_message m).messageGroupQueue = q.messageGroupQueue ∧
        m.messageGroupId ∈ (q._put_message m).inflightGroups) := by
  refine ⟨?_, ?_, ?_⟩
  · rw [put_message_groups_get]
    exact heappush_perm priorityKey _ m
  · intro hcond hnot
    have h1 : ¬ (m.receiveCount < 1 ∧ m.messageGroupId ∈ q.inflightGroups) := by
      rintro ⟨hrc, hmem⟩
      exact hnot ⟨hmem, by omega⟩
    rw [put_message_eq]
    simp only [if_neg h1]
    by_cases h2 : m.messageGroupId ∈ q.inflightGroups
    · rw [if_pos h2]
      refine ⟨rfl, ?_⟩
      intro hmem
      exact (hnd.mem_erase_iff.mp hmem).1 rfl
    · rw [if_neg h2]
      have hempty : ((alGet q.messageGroups m.messageGroupId).getD []).isEmpty = true := by
        rcases hcond with hc | hc
        · rw [hc]
          rfl
        · exact absurd hc.1 h2
      rw [if_pos hempty]
      exact ⟨rfl, h2⟩
  · rintro ⟨hmem, hrc⟩
    rw [put_message_eq]
    rw [if_pos ⟨by omega, hmem⟩]
    exact ⟨rfl, hmem⟩

theorem mem_heappush (key : α → Int) (l : List α) (x : α) : x ∈ heappush key l x :=
  (heappush_perm key l x).mem_iff.mpr (List.mem_cons_self x l)

/-! ### Sample states used by closed witness and counterexample theorems -/

def sampleMessage (mid : String) (prio : Int) : SqsMessage :=
  { messageId := mid, body := "body", created := prio, priority := prio,
    receiveCount := 0, approximateReceiveCount := 0, visibilityTimeout := 30,
    visibilityDeadline := none, delaySeconds := none, lastReceived := none,
    firstReceived := none, deleted := false, receiptHandles := [],
    messageGroupId := some "g", messageDeduplicationId := some "d",
    sequenceNumber := none }

def sampleFifoQueue : FifoQueue :=
  { queueArn := "arn:aws:sqs:us-east-1:000000000000:q.fifo", delayed := [],
    inflight := [], receipts := [], messageGroups := [], inflightGroups := [],
    messageGroupQueue := [], deduplication := [], deduplicationScope := "queue",
    contentBasedDeduplication := false, visibilityTimeoutAttr := 30,
    delaySecondsAttr := 0, messageRetentionPeriod := 345600,
    maxReceiveCount := none, sequenceCounter := 0 }

def sampleStandardQueue : StandardQueue :=
  { queueArn := "arn:aws:sqs:us-east-1:000000000000:q", visible := [],
    delayed := [], inflight := [], receipts := [], visibilityTimeoutAttr := 30,
    delaySecondsAttr := 0, messageRetentionPeriod := 345600,
    maxReceiveCount := none }

/-- C1 witness. -/
theorem fifo_put_message_readies_group_witness :
    ((sampleFifoQueue._put_message (sampleMessage "m1" 5)).messageGroupQueue =
        sampleFifoQueue.messageGroupQueue ++ [some "g"] ∧
      some "g" ∉ (sampleFifoQueue._put_message (sampleMessage "m1" 5)).inflightGroups) ∧
    (({ sampleFifoQueue with inflightGroups := [some "g"] }._put_message
          (sampleMessage "m1" 5)).messageGroupQueue =
        { sampleFifoQueue with inflightGroups := [some "g"] }.messageGroupQueue ∧
      some "g" ∈ ({ sampleFifoQueue with inflightGroups := [some "g"] }._put_message
          (sampleMessage "m1" 5)).inflightGroups) := by
  constructor
  · exact (fifo_put_message_readies_group sampleFifoQueue (sampleMessage "m1" 5)
      (by decide)).2.1 (by decide) (by decide)
  · exact (fifo_put_message_readies_group
      { sampleFifoQueue with inflightGroups := [some "g"] } (sampleMessage "m1" 5)
      (by decide)).2.2 (by decide)

/-- C7 counterexample: passing `delay_seconds = 0` explicitly to
`FifoQueue.put` is accepted (the Python guard is `if delay_seconds:`, which
is false for `0`), so a non-null `delay_seconds` is not always rejected. -/
theorem fifo_put_delay_zero_accepted :
    (sampleFifoQueue.put (fun s => s) 100 { messageId := "id1", body := "b1" }
        none (some "d") (some "g") (some 0)).isOk = true := by
  rfl

/-- C7 (amended): `FifoQueue.put` rejects a truthy (non-null, non-zero)
`delay_seconds` with an invalid-parameter error; when `delay_seconds` is not
truthy, a missing or empty `message_group_id` raises
`MissingRequiredParameter`; and an explicit `delay_seconds = 0` behaves
exactly like omitting the parameter (FIFO delay is queue-level only: the
message delay always comes from the queue attribute). -/
theorem fifo_put_validation (q : FifoQueue) (ch : String → String) (now : Int)
    (message : Message) (vt : Option Int) (dedup gid : Option String)
    (delay : Option Int) :
    (intTruthy delay = true →
      q.put ch now message vt dedup gid delay = .error (.invalidParameterValue
        "Value for parameter DelaySeconds is invalid. Reason: The request include parameter that is not valid for this queue type.")) ∧
    (intTruthy delay = false → strFalsy gid = true →
      q.put ch now message vt dedup gid delay = .error (.missingRequiredParameter
        "The request must contain the parameter MessageGroupId.")) ∧
    q.put ch now message vt dedup gid (some 0) = q.put ch now message vt dedup gid none := by
  refine ⟨?_, ?_, rfl⟩
  · intro h
    simp [FifoQueue.put, h]
  · intro h1 h2
    simp [FifoQueue.put, h1, h2]

/-- C7 witness. -/
theorem fifo_put_validation_witness :
    sampleFifoQueue.put (fun s => s) 100 { messageId := "id1", body := "b1" }
        none (some "d") (some "g") (some 5) = .error (.invalidParameterValue
        "Value for parameter DelaySeconds is invalid. Reason: The request include parameter that is not valid for this queue type.") ∧
    sampleFifoQueue.put (fun s => s) 100 { messageId := "id1", body := "b1" }
        none (some "d") none none = .error (.missingRequiredParameter
        "The request must contain the parameter MessageGroupId.") := by
  constructor
  · exact (fifo_put_validation sampleFifoQueue (fun s => s) 100
      { messageId := "id1", body := "b1" } none (some "d") (some "g") (some 5)).1 (by decide)
  · exact (fifo_put_validation sampleFifoQueue (fun s => s) 100
      { messageId := "id1", body := "b1" } none (some "d") none none).2.1 (by decide) (by decide)

/-- C10: `FifoQueue.clear` (purge) empties the base structures (`delayed`,
`inflight`, `receipts`) and all FIFO-specific structures: the group map, the
inflight-group set, the ready-group queue and the deduplication table.
Consequently any valid `put` after the purge finds no prior entry for its
deduplication id - even within the deduplication window - and is enqueued as
a new message (into `delayed` or its group heap) with its own message id,
with the deduplication table now pointing at it. -/
theorem fifo_clear_purges_everything (q : FifoQueue) (ch : String → String)
    (now : Int) (message : Message) (vt : Option Int) (d g : String)
    (hd : ¬ d = "") (hg : ¬ g = "") :
    q.clear.delayed = [] ∧ q.clear.inflight = [] ∧ q.clear.receipts = [] ∧
    q.clear.messageGroups = [] ∧ q.clear.inflightGroups = [] ∧
    q.clear.messageGroupQueue = [] ∧ q.clear.deduplication = [] ∧
    (∀ qr m, q.clear.put ch now message vt (some d) (some g) none = .ok (qr, m) →
      m.messageId = message.messageId ∧
      alGet qr.deduplication d = some m ∧
      (m ∈ qr.delayed ∨ m ∈ (alGet qr.messageGroups (some g)).getD [])) := by
  refine ⟨rfl, rfl, rfl, rfl, rfl, rfl, rfl, ?_⟩
  intro qr m h
  have hsg : strFalsy (some g) = false := by simp [strFalsy, hg]
  have hsd : strFalsy (some d) = false := by simp [strFalsy, hd]
  simp only [FifoQueue.put, intTruthy, hsg, hsd, Bool.false_and, Bool.false_eq_true,
    if_false, Option.getD_some, decide_eq_true_eq] at h
  simp only [FifoQueue.clear, alGet] at h
  split at h <;>
    (rw [Except.ok.injEq, Prod.mk.injEq] at h
     obtain ⟨hqr, hm⟩ := h
     subst hqr
     subst hm)
  · refine ⟨rfl, alGet_alSet_self _ _ _, Or.inl ?_⟩
    simp [msgSetAdd, memById]
  · refine ⟨rfl, alGet_alSet_self _ _ _, Or.inr ?_⟩
    rw [put_message_groups_get2 _ _ (some g) rfl]
    simp only [alGet, Option.getD_none, Option.getD_some]
    exact mem_heappush _ _ _

/-- C10 witness. -/
theorem fifo_clear_purges_everything_witness :
    sampleFifoQueue.clear.deduplication = [] ∧
    (∀ qr m, sampleFifoQueue.clear.put (fun s => s) 100
        { messageId := "id1", body := "b1" } none (some "d") (some "g") none = .ok (qr, m) →
      m.messageId = "id1" ∧ alGet qr.deduplication "d" = some m ∧
      (m ∈ qr.delayed ∨ m ∈ (alGet qr.messageGroups (some "g")).getD [])) ∧
    (sampleFifoQueue.clear.put (fun s => s) 100
        { messageId := "id1", body := "b1" } none (some "d") (some "g") none).isOk = true := by
  have hthm := fifo_clear_purges_everything sampleFifoQueue (fun s => s) 100
    { messageId := "id1", body := "b1" } none "d" "g" (by decide) (by decide)
  exact ⟨hthm.2.2.2.2.2.2.1, hthm.2.2.2.2.2.2.2, by rfl⟩

/-- Decidable reformulation of the heap property on a concrete list. -/
theorem isHeap_iff_fin (key : α → Int) (l : List α) :
    IsHeap key l ↔ ∀ j : Fin l.length, 0 < j.val →
      key (l.get ⟨(j.val-1)/2, Nat.lt_of_le_of_lt
        (Nat.le_trans (Nat.div_le_self _ _) (Nat.sub_le _ _)) j.isLt⟩) ≤ key (l.get j) := by
  constructor
  · intro h j hj
    exact h j.val hj _ _ (by simp [List.getElem?_eq_getElem, List.get_eq_getElem])
      (by simp [List.getElem?_eq_getElem, List.get_eq_getElem])
  · intro h j hj x y hx hy
    have hjl : j < l.length := (List.getElem?_eq_some.mp hy).1
    have hpl : (j-1)/2 < l.length := by omega
    have h2 := h ⟨j, hjl⟩ hj
    rw [List.getElem?_eq_getElem hpl] at hx
    rw [List.getElem?_eq_getElem hjl] at hy
    injection hx with hx2
    injection hy with hy2
    subst hx2
    subst hy2
    simpa [List.get_eq_getElem] using h2

/-- C8: on a heap of messages whose priority equals their creation time,
`remove_expired_messages_from_heap` returns exactly the messages created at
or before `now - message_retention_period` (popping only expired roots), and
the remaining list is exactly the non-expired messages and still satisfies
the heap property. -/
theorem remove_expired_messages_from_heap_spec (now retention : Int)
    (heap : List SqsMessage) (hheap : IsHeap priorityKey heap)
    (hpc : ∀ m ∈ heap, m.priority = m.created) :
    (∀ m ∈ (remove_expired_messages_from_heap now retention heap).1,
        m.created ≤ now - retention) ∧
    (∀ m ∈ (remove_expired_messages_from_heap now retention heap).2,
        now - retention < m.created) ∧
    heap.Perm ((remove_expired_messages_from_heap now retention heap).1 ++
        (remove_expired_messages_from_heap now retention heap).2) ∧
    IsHeap priorityKey (remove_expired_messages_from_heap now retention heap).2 :=
  remove_expired_correct now retention heap hheap hpc

/-- C8 witness. -/
theorem remove_expired_messages_from_heap_spec_witness :
    IsHeap priorityKey [sampleMessage "m1" 10, sampleMessage "m2" 20, sampleMessage "m3" 30] ∧
    (∀ m ∈ [sampleMessage "m1" 10, sampleMessage "m2" 20, sampleMessage "m3" 30],
      m.priority = m.created) ∧
    ((∀ m ∈ (remove_expired_messages_from_heap 315 300
          [sampleMessage "m1" 10, sampleMessage "m2" 20, sampleMessage "m3" 30]).1,
        m.created ≤ 315 - 300) ∧
      (∀ m ∈ (remove_expired_messages_from_heap 315 300
          [sampleMessage "m1" 10, sampleMessage "m2" 20, sampleMessage "m3" 30]).2,
        315 - 300 < m.created) ∧
      List.Perm [sampleMessage "m1" 10, sampleMessage "m2" 20, sampleMessage "m3" 30]
        ((remove_expired_messages_from_heap 315 300
            [sampleMessage "m1" 10, sampleMessage "m2" 20, sampleMessage "m3" 30]).1 ++
          (remove_expired_messages_from_heap 315 300
            [sampleMessage "m1" 10, sampleMessage "m2" 20, sampleMessage "m3" 30]).2) ∧
      IsHeap priorityKey (remove_expired_messages_from_heap 315 300
          [sampleMessage "m1" 10, sampleMessage "m2" 20, sampleMessage "m3" 30]).2) :=
  ⟨(isHeap_iff_fin _ _).mpr (by decide), by decide,
    remove_expired_messages_from_heap_spec 315 300 _
      ((isHeap_iff_fin _ _).mpr (by decide)) (by decide)⟩

/-- C9: any exception in the worker loop of a running (not cancelled) move
task - including the `NotImplementedError` raised when the source receive
yields a dead-letter result - marks the task FAILED with the classified
failure reason (the error code of a service exception, the class name of any
other exception); the remaining trace is ignored (the manager never retries
a failed task) and the moved counter keeps only the successes before the
failure. -/
theorem run_move_task_failure (task : MessageMoveTask) (n : Nat) (e : TaskException)
    (rest : List MoveIteration) (hc : task.cancelEventSet = false) :
    (run_move_task task (List.replicate n .moved ++ .raises e :: rest) =
      { task with
          status := MessageMoveTaskStatus.FAILED,
          failureReason := some (match e with
            | .serviceException code => code
            | .otherException className => className),
          approximateNumberOfMessagesMoved :=
            task.approximateNumberOfMessagesMoved + n }) ∧
    (run_move_task task (List.replicate n .moved ++ .deadLetterResult :: rest) =
      { task with
          status := MessageMoveTaskStatus.FAILED,
          failureReason := some "NotImplementedError",
          approximateNumberOfMessagesMoved :=
            task.approximateNumberOfMessagesMoved + n }) := by
  induction n generalizing task with
  | zero =>
    constructor
    · simp [run_move_task, hc, fail_task]
    · simp [run_move_task, hc, fail_task]
  | succ n ih =>
    have harith : task.approximateNumberOfMessagesMoved + 1 + n =
        task.approximateNumberOfMessagesMoved + (n + 1) := by omega
    have hstep := ih { task with approximateNumberOfMessagesMoved :=
      task.approximateNumberOfMessagesMoved + 1 } hc
    constructor
    · rw [List.replicate_succ, List.cons_append, run_move_task, if_neg (by simp [hc])]
      rw [hstep.1]
      rw [show ({ task with approximateNumberOfMessagesMoved :=
        task.approximateNumberOfMessagesMoved + 1 } : MessageMoveTask).approximateNumberOfMessagesMoved =
        task.approximateNumberOfMessagesMoved + 1 from rfl, harith]
    · rw [List.replicate_succ, List.cons_append, run_move_task, if_neg (by simp [hc])]
      rw [hstep.2]
      rw [show ({ task with approximateNumberOfMessagesMoved :=
        task.approximateNumberOfMessagesMoved + 1 } : MessageMoveTask).approximateNumberOfMessagesMoved =
        task.approximateNumberOfMessagesMoved + 1 from rfl, harith]

/-- C9 witness. -/
theorem run_move_task_failure_witness :
    run_move_task
        { status := MessageMoveTaskStatus.RUNNING, failureReason := none,
          approximateNumberOfMessagesMoved := 0, cancelEventSet := false }
        (List.replicate 2 .moved ++ .raises (.serviceException "QueueDoesNotExist") :: [.moved]) =
      { status := MessageMoveTaskStatus.FAILED,
        failureReason := some "QueueDoesNotExist",
        approximateNumberOfMessagesMoved := 2, cancelEventSet := false } :=
  (run_move_task_failure
    { status := MessageMoveTaskStatus.RUNNING, failureReason := none,
      approximateNumberOfMessagesMoved := 0, cancelEventSet := false }
    2 (.serviceException "QueueDoesNotExist") [.moved] (by decide)).1

/-- C2: `FifoQueue.put` with an explicitly resolved deduplication id `d`.
When a prior message is registered under `d`, its priority lies within the
5-minute deduplication interval of `now`, and the deduplication scope is
"queue" or both messages carry the same group id, the put is a duplicate:
the caller-visible message id becomes the original message's id, and the
queue state is unchanged except for the sequence counter (nothing is
enqueued, the deduplication table keeps the original entry). Otherwise the
message is enqueued as new - into `delayed` or onto its group heap - and the
table entry for `d` is replaced by the new message. The `hdelayed`
hypothesis is the freshness of the new message id (Python set `add` into
`delayed` would be a no-op on a duplicate id). -/
theorem fifo_put_deduplication (q : FifoQueue) (ch : String → String) (now : Int)
    (message : Message) (vt : Option Int) (d g : String)
    (hd : ¬ d = "") (hg : ¬ g = "")
    (hscope : q.deduplicationScope = "queue" ∨ q.deduplicationScope = "messageGroup")
    (hdelayed : memById q.delayed message.messageId = false) :
    (∀ orig, alGet q.deduplication d = some orig →
      (orig.priority + DEDUPLICATION_INTERVAL_IN_SEC > now ∧
        (q.deduplicationScope = "queue" ∨ some g = orig.messageGroupId)) →
      ∀ qr m, q.put ch now message vt (some d) (some g) none = .ok (qr, m) →
        m.messageId = orig.messageId ∧
        qr = { q with sequenceCounter := q.sequenceCounter + 1 }) ∧
    ((∀ orig, alGet q.deduplication d = some orig →
        ¬ (orig.priority + DEDUPLICATION_INTERVAL_IN_SEC > now ∧
          (q.deduplicationScope = "queue" ∨ some g = orig.messageGroupId))) →
      ∀ qr m, q.put ch now message vt (some d) (some g) none = .ok (qr, m) →
        m.messageId = message.messageId ∧
        alGet qr.deduplication d = some m ∧
        (m ∈ qr.delayed ∨ m ∈ (alGet qr.messageGroups (some g)).getD [])) := by
  have hsg : strFalsy (some g) = false := by simp [strFalsy, hg]
  have hsd : strFalsy (some d) = false := by simp [strFalsy, hd]
  have hiff : (¬ q.deduplicationScope = "messageGroup") ↔ q.deduplicationScope = "queue" := by
    rcases hscope with h | h <;> simp [h]
  constructor
  · intro orig horig hcond qr m h
    simp only [FifoQueue.put, intTruthy, hsg, hsd, Bool.false_and, Bool.false_eq_true,
      if_false, Option.getD_some, decide_eq_true_eq] at h
    rw [horig] at h
    simp only [if_pos (⟨hcond.1, Or.imp_left hiff.mpr hcond.2⟩ :
      orig.priority + DEDUPLICATION_INTERVAL_IN_SEC > now ∧
        (¬ q.deduplicationScope = "messageGroup" ∨ some g = orig.messageGroupId))] at h
    rw [Except.ok.injEq, Prod.mk.injEq] at h
    obtain ⟨hqr, hm⟩ := h
    subst hqr
    subst hm
    exact ⟨rfl, rfl⟩
  · intro hno qr m h
    simp only [FifoQueue.put, intTruthy, hsg, hsd, Bool.false_and, Bool.false_eq_true,
      if_false, Option.getD_some, decide_eq_true_eq] at h
    rcases horig : alGet q.deduplication d with _ | orig
    · rw [horig] at h
      split at h
      · rename_i heq
        exact absurd heq (by simp)
      split at h <;>
        (rw [Except.ok.injEq, Prod.mk.injEq] at h
         obtain ⟨hqr, hm⟩ := h
         subst hqr
         subst hm)
      · refine ⟨rfl, alGet_alSet_self _ _ _, Or.inl ?_⟩
        simp only [msgSetAdd, memById, List.any_eq_true, decide_eq_true_eq] at hdelayed ⊢
        rw [if_neg ?_]
        · exact List.mem_append_right _ (List.mem_singleton.mpr rfl)
        · rintro ⟨x, hx, he⟩
          have hx2 : (q.delayed.any fun z => decide (z.messageId = message.messageId)) = true :=
            List.any_eq_true.mpr ⟨x, hx, by simpa using he⟩
          rw [hdelayed] at hx2
          exact absurd hx2 (by simp)
      · refine ⟨rfl, alGet_alSet_self _ _ _, Or.inr ?_⟩
        rw [put_message_groups_get2 _ _ (some g) rfl]
        simp only [Option.getD_some]
        exact mem_heappush _ _ _
    · rw [horig] at h
      have hncode : ¬ (orig.priority + DEDUPLICATION_INTERVAL_IN_SEC > now ∧
          (¬ q.deduplicationScope = "messageGroup" ∨ some g = orig.messageGroupId)) := by
        rintro ⟨h1, h2⟩
        exact hno orig horig ⟨h1, Or.imp_left hiff.mp h2⟩
      simp only [if_neg hncode] at h
      split at h <;>
        (rw [Except.ok.injEq, Prod.mk.injEq] at h
         obtain ⟨hqr, hm⟩ := h
         subst hqr
         subst hm)
      · refine ⟨rfl, alGet_alSet_self _ _ _, Or.inl ?_⟩
        simp only [msgSetAdd, memById, List.any_eq_true, decide_eq_true_eq] at hdelayed ⊢
        rw [if_neg ?_]
        · exact List.mem_append_right _ (List.mem_singleton.mpr rfl)
        · rintro ⟨x, hx, he⟩
          have hx2 : (q.delayed.any fun z => decide (z.messageId = message.messageId)) = true :=
            List.any_eq_true.mpr ⟨x, hx, by simpa using he⟩
          rw [hdelayed] at hx2
          exact absurd hx2 (by simp)
      · refine ⟨rfl, alGet_alSet_self _ _ _, Or.inr ?_⟩
        rw [put_message_groups_get2 _ _ (some g) rfl]
        simp only [Option.getD_some]
        exact mem_heappush _ _ _

def sampleDedupQueue : FifoQueue :=
  { sampleFifoQueue with deduplication := [("d", sampleMessage "orig" 50)] }

/-- C2 witness. -/
theorem fifo_put_deduplication_witness :
    (∀ qr m, sampleDedupQueue.put (fun s => s) 100 { messageId := "id2", body := "b2" }
        none (some "d") (some "g") none = .ok (qr, m) →
      m.messageId = "orig" ∧
        qr = { sampleDedupQueue with sequenceCounter := sampleDedupQueue.sequenceCounter + 1 }) ∧
    (sampleDedupQueue.put (fun s => s) 100 { messageId := "id2", body := "b2" }
        none (some "d") (some "g") none).isOk = true := by
  constructor
  · intro qr m h
    exact (fifo_put_deduplication sampleDedupQueue (fun s => s) 100
      { messageId := "id2", body := "b2" } none "d" "g" (by decide) (by decide)
      (Or.inl rfl) (by decide)).1 (sampleMessage "orig" 50) rfl
      ⟨by decide, Or.inl rfl⟩ qr m h
  · rfl

/-! ### Lemmas about receive bookkeeping -/

theorem alGet_alSet_ne [DecidableEq κ] (l : List (κ × ν)) (k k2 : κ) (v : ν)
    (h : ¬ k = k2) : alGet (alSet l k v) k2 = alGet l k2 := by
  induction l with
  | nil => simp [alGet, alSet, h]
  | cons p rest ih =>
    obtain ⟨k3, v3⟩ := p
    by_cases h3 : k3 = k
    · subst h3
      simp [alGet, alSet, h]
    · simp [alGet, alSet, h3, ih]

theorem list_any_perm (p : α → Bool) {l1 l2 : List α} (h : l1.Perm l2) :
    l1.any p = l2.any p := by
  rw [Bool.eq_iff_iff]
  simp only [List.any_eq_true]
  constructor
  · rintro ⟨x, hx, hp⟩
    exact ⟨x, h.mem_iff.mp hx, hp⟩
  · rintro ⟨x, hx, hp⟩
    exact ⟨x, h.mem_iff.mpr hx, hp⟩

theorem memById_syncMessageList (l : List SqsMessage) (m : SqsMessage) (mid : String) :
    memById (syncMessageList l m) mid = memById l mid := by
  induction l with
  | nil => rfl
  | cons z rest ih =>
    unfold memById syncMessageList at ih ⊢
    simp only [List.map_cons, List.any_cons]
    rw [ih]
    by_cases h : z.messageId = m.messageId
    · rw [if_pos h, h]
    · rw [if_neg h]

theorem memById_heappush (key : SqsMessage → Int) (l : List SqsMessage)
    (x : SqsMessage) (mid : String) :
    memById (heappush key l x) mid = (decide (x.messageId = mid) || memById l mid) := by
  unfold memById
  rw [list_any_perm _ (heappush_perm key l x)]
  simp

theorem memById_msgSetAdd (l : List SqsMessage) (m : SqsMessage) (mid : String) :
    memById (msgSetAdd l m) mid = (memById l mid || decide (m.messageId = mid)) := by
  unfold msgSetAdd
  by_cases h : memById l m.messageId
  · rw [if_pos h]
    by_cases h2 : m.messageId = mid
    · subst h2
      simp [h]
    · simp [h2]
  · rw [if_neg h]
    simp [memById]

theorem StandardQueue.registerOne_snd (q : StandardQueue) (m0 : SqsMessage) :
    (q.registerOne m0).2.1 = addHandle q.queueArn m0 := by
  simp only [StandardQueue.registerOne]
  split <;> rfl

theorem StandardQueue.registerOne_queueArn (q : StandardQueue) (m0 : SqsMessage) :
    (q.registerOne m0).1.queueArn = q.queueArn := by
  simp only [StandardQueue.registerOne]
  split <;> rfl

theorem StandardQueue.registerAll_successful (q : StandardQueue) (ms : List SqsMessage) :
    (q.registerAll ms).2.1 = ms.map (addHandle q.queueArn) := by
  induction ms generalizing q with
  | nil => rfl
  | cons m ms ih =>
    show (q.registerOne m).2.1 :: ((q.registerOne m).1.registerAll ms).2.1 = _
    rw [StandardQueue.registerOne_snd, ih, StandardQueue.registerOne_queueArn,
      List.map_cons]

theorem StandardQueue.registerOne_zero_mem (q : StandardQueue) (m0 : SqsMessage)
    (h0 : m0.visibilityTimeout = 0) :
    memById (q.registerOne m0).1.visible m0.messageId = true ∧
    (∀ mid, memById (q.registerOne m0).1.inflight mid = memById q.inflight mid) ∧
    (∀ mid, memById q.visible mid = true →
      memById (q.registerOne m0).1.visible mid = true) := by
  simp only [StandardQueue.registerOne, StandardQueue.syncMessage]
  rw [if_pos (show (addHandle q.queueArn m0).visibilityTimeout = 0 from h0)]
  refine ⟨?_, ?_, ?_⟩
  · rw [memById_heappush]
    simp [addHandle]
  · intro mid
    exact memById_syncMessageList _ _ _
  · intro mid hm
    rw [memById_heappush, memById_syncMessageList]
    simp [hm]

theorem StandardQueue.registerOne_nonzero_mem (q : StandardQueue) (m0 : SqsMessage)
    (h0 : ¬ m0.visibilityTimeout = 0) :
    memById (q.registerOne m0).1.inflight m0.messageId = true ∧
    (∀ mid, memById (q.registerOne m0).1.visible mid = memById q.visible mid) ∧
    (∀ mid, memById q.inflight mid = true →
      memById (q.registerOne m0).1.inflight mid = true) := by
  simp only [StandardQueue.registerOne, StandardQueue.syncMessage]
  rw [if_neg (show ¬ (addHandle q.queueArn m0).visibilityTimeout = 0 from h0)]
  refine ⟨?_, ?_, ?_⟩
  · rw [memById_msgSetAdd]
    simp [addHandle]
  · intro mid
    exact memById_syncMessageList _ _ _
  · intro mid hm
    rw [memById_msgSetAdd, memById_syncMessageList]
    simp [hm]

theorem StandardQueue.registerAll_zero_mem (q : StandardQueue) (ms : List SqsMessage)
    (hall : ∀ m ∈ ms, m.visibilityTimeout = 0) :
    (∀ m ∈ ms, memById (q.registerAll ms).1.visible m.messageId = true) ∧
    (∀ mid, memById (q.registerAll ms).1.inflight mid = memById q.inflight mid) ∧
    (∀ mid, memById q.visible mid = true →
      memById (q.registerAll ms).1.visible mid = true) := by
  induction ms generalizing q with
  | nil => exact ⟨by simp, fun mid => rfl, fun mid h => h⟩
  | cons m ms ih =>
    have hm0 := hall m (List.mem_cons_self m ms)
    have hone := StandardQueue.registerOne_zero_mem q m hm0
    have hih := ih (q.registerOne m).1 (fun z hz => hall z (List.mem_cons_of_mem m hz))
    refine ⟨?_, ?_, ?_⟩
    · intro z hz
      rcases List.mem_cons.mp hz with rfl | hz2
      · exact hih.2.2 z.messageId hone.1
      · exact hih.1 z hz2
    · intro mid
      rw [show (q.registerAll (m :: ms)).1 = ((q.registerOne m).1.registerAll ms).1 from rfl]
      rw [hih.2.1 mid, hone.2.1 mid]
    · intro mid hm
      exact hih.2.2 mid (hone.2.2 mid hm)

theorem StandardQueue.registerAll_nonzero_mem (q : StandardQueue) (ms : List SqsMessage)
    (hall : ∀ m ∈ ms, ¬ m.visibilityTimeout = 0) :
    (∀ m ∈ ms, memById (q.registerAll ms).1.inflight m.messageId = true) ∧
    (∀ mid, memById (q.registerAll ms).1.visible mid = memById q.visible mid) := by
  have key : ∀ (q : StandardQueue),
      (∀ m ∈ ms, ¬ m.visibilityTimeout = 0) →
      (∀ m ∈ ms, memById (q.registerAll ms).1.inflight m.messageId = true) ∧
      (∀ mid, memById (q.registerAll ms).1.visible mid = memById q.visible mid) ∧
      (∀ mid, memById q.inflight mid = true →
        memById (q.registerAll ms).1.inflight mid = true) := by
    clear hall
    induction ms with
    | nil => exact fun q _ => ⟨by simp, fun mid => rfl, fun mid h => h⟩
    | cons m ms ih =>
      intro q hall2
      have hm0 := hall2 m (List.mem_cons_self m ms)
      have hone := StandardQueue.registerOne_nonzero_mem q m hm0
      have hih := ih (q.registerOne m).1 (fun z hz => hall2 z (List.mem_cons_of_mem m hz))
      refine ⟨?_, ?_, ?_⟩
      · intro z hz
        rcases List.mem_cons.mp hz with rfl | hz2
        · exact hih.2.2 z.messageId hone.1
        · exact hih.1 z hz2
      · intro mid
        rw [show (q.registerAll (m :: ms)).1 = ((q.registerOne m).1.registerAll ms).1 from rfl]
        rw [hih.2.1 mid, hone.2.1 mid]
      · intro mid hm
        exact hih.2.2 mid (hone.2.2 mid hm)
  exact ⟨(key q hall).1, (key q hall).2.1⟩

theorem collectMessages_eq_none (maxRc : Option Nat) (vt now : Int) (num : Nat)
    {heap : List SqsMessage} (succ dlq : List SqsMessage)
    (hpop : heappop? priorityKey heap = none) :
    collectMessages maxRc vt now num heap succ dlq = ⟨heap, succ, dlq⟩ := by
  rw [collectMessages, hpop]

theorem collectMessages_eq_some (maxRc : Option Nat) (vt now : Int) (num : Nat)
    {heap : List SqsMessage} {message : SqsMessage} {rest : List SqsMessage}
    (succ dlq : List SqsMessage)
    (hpop : heappop? priorityKey heap = some (message, rest)) :
    collectMessages maxRc vt now num heap succ dlq =
      (if message.deleted then collectMessages maxRc vt now num rest succ dlq
       else if maxRcExceeded maxRc (collectUpdate vt now message).receiveCount then
         collectMessages maxRc vt now num rest succ (dlq ++ [collectUpdate vt now message])
       else if succ.length + 1 = num then
         ⟨rest, succ ++ [collectUpdate2 vt now message], dlq⟩
       else collectMessages maxRc vt now num rest
         (succ ++ [collectUpdate2 vt now message]) dlq) := by
  rw [collectMessages, hpop]
  rfl

/-- Invariants of the shared collection loop: every collected successful
message carries the resolved visibility timeout; with a configured
`max_receive_count` in the validated 1..1000 range, the dead-letter list
collects exactly the messages whose incremented receive count exceeds it
and the successful list those at or below it. -/
theorem collectMessages_invariants (maxRc : Option Nat) (vt now : Int) (num : Nat)
    (heap succ dlq : List SqsMessage) :
    ((∀ m ∈ succ, m.visibilityTimeout = vt) →
      ∀ m ∈ (collectMessages maxRc vt now num heap succ dlq).successful,
        m.visibilityTimeout = vt) ∧
    (∀ k, maxRc = some k → 1 ≤ k →
      (∀ m ∈ succ, m.receiveCount ≤ k) →
      (∀ m ∈ dlq, k < m.receiveCount) →
      (∀ m ∈ (collectMessages maxRc vt now num heap succ dlq).successful,
        m.receiveCount ≤ k) ∧
      (∀ m ∈ (collectMessages maxRc vt now num heap succ dlq).dead_letter_messages,
        k < m.receiveCount)) := by
  have main : ∀ (n : Nat) (heap succ dlq : List SqsMessage), heap.length = n →
      ((∀ m ∈ succ, m.visibilityTimeout = vt) →
        ∀ m ∈ (collectMessages maxRc vt now num heap succ dlq).successful,
          m.visibilityTimeout = vt) ∧
      (∀ k, maxRc = some k → 1 ≤ k →
        (∀ m ∈ succ, m.receiveCount ≤ k) →
        (∀ m ∈ dlq, k < m.receiveCount) →
        (∀ m ∈ (collectMessages maxRc vt now num heap succ dlq).successful,
          m.receiveCount ≤ k) ∧
        (∀ m ∈ (collectMessages maxRc vt now num heap succ dlq).dead_letter_messages,
          k < m.receiveCount)) := by
    intro n
    induction n using Nat.strong_induction_on with
    | _ n ih =>
      intro heap succ dlq hn
      rcases hpop : heappop? priorityKey heap with _ | ⟨message, rest⟩
      · rw [collectMessages_eq_none maxRc vt now num succ dlq hpop]
        exact ⟨fun h => h, fun k hk h1 hs hd => ⟨hs, hd⟩⟩
      · have hlen := heappop?_length priorityKey hpop
        have ihr := fun succ2 dlq2 =>
          ih rest.length (by omega) rest succ2 dlq2 rfl
        rw [collectMessages_eq_some maxRc vt now num succ dlq hpop]
        by_cases hdel : message.deleted
        · rw [if_pos hdel]
          exact ihr succ dlq
        · rw [if_neg hdel]
          by_cases hexc : maxRcExceeded maxRc (collectUpdate vt now message).receiveCount
          · rw [if_pos hexc]
            constructor
            · exact fun h => (ihr succ (dlq ++ [collectUpdate vt now message])).1 h
            · intro k hk h1 hs hd
              subst hk
              refine (ihr succ (dlq ++ [collectUpdate vt now message])).2 k rfl h1 hs ?_
              intro z hz
              rcases List.mem_append.mp hz with hz2 | hz2
              · exact hd z hz2
              · rw [List.mem_singleton.mp hz2]
                simp only [maxRcExceeded, Bool.and_eq_true, decide_eq_true_eq] at hexc
                exact hexc.2
          · rw [if_neg hexc]
            by_cases hfull : succ.length + 1 = num
            · rw [if_pos hfull]
              constructor
              · intro h z hz
                rcases List.mem_append.mp hz with hz2 | hz2
                · exact h z hz2
                · rw [List.mem_singleton.mp hz2]
                  rfl
              · intro k hk h1 hs hd
                subst hk
                refine ⟨?_, hd⟩
                intro z hz
                rcases List.mem_append.mp hz with hz2 | hz2
                · exact hs z hz2
                · rw [List.mem_singleton.mp hz2]
                  simp only [maxRcExceeded, Bool.and_eq_true, decide_eq_true_eq,
                    not_and, not_lt] at hexc
                  exact hexc (by omega)
            · rw [if_neg hfull]
              constructor
              · intro h
                refine (ihr (succ ++ [collectUpdate2 vt now message]) dlq).1 ?_
                intro z hz
                rcases List.mem_append.mp hz with hz2 | hz2
                · exact h z hz2
                · rw [List.mem_singleton.mp hz2]
                  rfl
              · intro k hk h1 hs hd
                subst hk
                refine (ihr (succ ++ [collectUpdate2 vt now message]) dlq).2 k rfl h1 ?_ hd
                intro z hz
                rcases List.mem_append.mp hz with hz2 | hz2
                · exact hs z hz2
                · rw [List.mem_singleton.mp hz2]
                  simp only [maxRcExceeded, Bool.and_eq_true, decide_eq_true_eq,
                    not_and, not_lt] at hexc
                  exact hexc (by omega)
  exact main heap.length heap succ dlq rfl

/-- Membership (by id) of a message in the heap of a given group. -/
def memInGroup (q : FifoQueue) (gid : Option String) (mid : String) : Bool :=
  memById ((alGet q.messageGroups gid).getD []) mid

theorem alGet_map_syncMessageList (l : List (Option String × List SqsMessage))
    (m : SqsMessage) (k : Option String) :
    alGet (l.map (fun p => (p.1, syncMessageList p.2 m))) k =
      (alGet l k).map (fun v => syncMessageList v m) := by
  induction l with
  | nil => rfl
  | cons p rest ih =>
    obtain ⟨k2, v2⟩ := p
    by_cases h : k2 = k
    · simp [alGet, h]
    · simp [alGet, h, ih]

theorem memInGroup_syncMessage (q : FifoQueue) (m : SqsMessage)
    (gid : Option String) (mid : String) :
    memInGroup (q.syncMessage m) gid mid = memInGroup q gid mid := by
  unfold memInGroup FifoQueue.syncMessage
  show memById ((alGet (q.messageGroups.map (fun p => (p.1, syncMessageList p.2 m))) gid).getD []) mid = _
  rw [alGet_map_syncMessageList]
  rcases alGet q.messageGroups gid with _ | v
  · rfl
  · exact memById_syncMessageList v m mid

theorem memInGroup_put_message_self (q : FifoQueue) (m : SqsMessage) :
    memInGroup (q._put_message m) m.messageGroupId m.messageId = true := by
  unfold memInGroup
  rw [put_message_groups_get]
  rw [Option.getD_some, memById_heappush]
  simp

theorem put_message_messageGroups_ne (q : FifoQueue) (m : SqsMessage)
    (gid : Option String) (h : ¬ m.messageGroupId = gid) :
    alGet (q._put_message m).messageGroups gid = alGet q.messageGroups gid := by
  rw [put_message_eq]
  have hbase : alGet (putMessageBase q m).messageGroups gid = alGet q.messageGroups gid := by
    unfold putMessageBase
    show alGet (alSet _ m.messageGroupId _) gid = _
    rw [alGet_alSet_ne _ _ _ _ h]
    by_cases h2 : (alGet q.messageGroups m.messageGroupId).isSome
    · rw [if_pos h2]
    · rw [if_neg h2, alGet_alSet_ne _ _ _ _ h]
  split
  · exact hbase
  · split
    · exact hbase
    · split
      · exact hbase
      · exact hbase

theorem memInGroup_put_message_mono (q : FifoQueue) (m : SqsMessage)
    (gid : Option String) (mid : String) (h : memInGroup q gid mid = true) :
    memInGroup (q._put_message m) gid mid = true := by
  by_cases hg : m.messageGroupId = gid
  · subst hg
    unfold memInGroup at h ⊢
    rw [put_message_groups_get, Option.getD_some, memById_heappush, h]
    simp
  · unfold memInGroup at h ⊢
    rw [put_message_messageGroups_ne q m gid hg]
    exact h

theorem put_message_inflight (q : FifoQueue) (m : SqsMessage) :
    (q._put_message m).inflight = q.inflight := by
  rw [put_message_eq]
  split
  · rfl
  · split
    · rfl
    · split
      · rfl
      · rfl

theorem put_message_queueArn (q : FifoQueue) (m : SqsMessage) :
    (q._put_message m).queueArn = q.queueArn := by
  rw [put_message_eq]
  split
  · rfl
  · split
    · rfl
    · split
      · rfl
      · rfl

theorem FifoQueue.registerOne_snd_fifo (q : FifoQueue) (m0 : SqsMessage) :
    (q.registerOne m0).2.1 = addHandle q.queueArn m0 := by
  simp only [FifoQueue.registerOne]
  split <;> rfl

theorem FifoQueue.registerOne_queueArn_fifo (q : FifoQueue) (m0 : SqsMessage) :
    (q.registerOne m0).1.queueArn = q.queueArn := by
  simp only [FifoQueue.registerOne]
  split
  · rw [put_message_queueArn]
    rfl
  · rfl

theorem FifoQueue.registerAll_successful_fifo (q : FifoQueue) (ms : List SqsMessage) :
    (q.registerAll ms).2.1 = ms.map (addHandle q.queueArn) := by
  induction ms generalizing q with
  | nil => rfl
  | cons m ms ih =>
    show (q.registerOne m).2.1 :: ((q.registerOne m).1.registerAll ms).2.1 = _
    rw [FifoQueue.registerOne_snd_fifo, ih, FifoQueue.registerOne_queueArn_fifo, List.map_cons]

theorem FifoQueue.registerOne_zero_mem_fifo (q : FifoQueue) (m0 : SqsMessage)
    (h0 : m0.visibilityTimeout = 0) :
    memInGroup (q.registerOne m0).1 m0.messageGroupId m0.messageId = true ∧
    (∀ mid, memById (q.registerOne m0).1.inflight mid = memById q.inflight mid) ∧
    (∀ gid mid, memInGroup q gid mid = true →
      memInGroup (q.registerOne m0).1 gid mid = true) := by
  simp only [FifoQueue.registerOne]
  rw [if_pos (show (addHandle q.queueArn m0).visibilityTimeout = 0 from h0)]
  refine ⟨?_, ?_, ?_⟩
  · exact memInGroup_put_message_self _ (addHandle q.queueArn m0)
  · intro mid
    rw [show ∀ (qq : FifoQueue) (mm : SqsMessage), (qq._put_message mm).inflight = qq.inflight
      from fun qq mm => put_message_inflight qq mm]
    exact memById_syncMessageList _ _ _
  · intro gid mid h
    refine memInGroup_put_message_mono _ (addHandle q.queueArn m0) gid mid ?_
    show memInGroup (q.syncMessage (addHandle q.queueArn m0)) gid mid = true
    rw [memInGroup_syncMessage]
    exact h

theorem FifoQueue.registerOne_nonzero_mem_fifo (q : FifoQueue) (m0 : SqsMessage)
    (h0 : ¬ m0.visibilityTimeout = 0) :
    memById (q.registerOne m0).1.inflight m0.messageId = true ∧
    (∀ gid mid, memInGroup (q.registerOne m0).1 gid mid = memInGroup q gid mid) ∧
    (∀ mid, memById q.inflight mid = true →
      memById (q.registerOne m0).1.inflight mid = true) := by
  simp only [FifoQueue.registerOne]
  rw [if_neg (show ¬ (addHandle q.queueArn m0).visibilityTimeout = 0 from h0)]
  refine ⟨?_, ?_, ?_⟩
  · show memById (msgSetAdd (syncMessageList q.inflight (addHandle q.queueArn m0))
      (addHandle q.queueArn m0)) m0.messageId = true
    rw [memById_msgSetAdd]
    simp [addHandle]
  · intro gid mid
    show memInGroup (q.syncMessage (addHandle q.queueArn m0)) gid mid = _
    rw [memInGroup_syncMessage]
  · intro mid hm
    show memById (msgSetAdd (syncMessageList q.inflight (addHandle q.queueArn m0))
      (addHandle q.queueArn m0)) mid = true
    rw [memById_msgSetAdd, memById_syncMessageList]
    simp [hm]

theorem FifoQueue.registerAll_zero_mem_fifo (q : FifoQueue) (ms : List SqsMessage)
    (hall : ∀ m ∈ ms, m.visibilityTimeout = 0) :
    (∀ m ∈ ms, memInGroup (q.registerAll ms).1 m.messageGroupId m.messageId = true) ∧
    (∀ mid, memById (q.registerAll ms).1.inflight mid = memById q.inflight mid) ∧
    (∀ gid mid, memInGroup q gid mid = true →
      memInGroup (q.registerAll ms).1 gid mid = true) := by
  induction ms generalizing q with
  | nil => exact ⟨by simp, fun mid => rfl, fun gid mid h => h⟩
  | cons m ms ih =>
    have hm0 := hall m (List.mem_cons_self m ms)
    have hone := FifoQueue.registerOne_zero_mem_fifo q m hm0
    have hih := ih (q.registerOne m).1 (fun z hz => hall z (List.mem_cons_of_mem m hz))
    refine ⟨?_, ?_, ?_⟩
    · intro z hz
      rcases List.mem_cons.mp hz with rfl | hz2
      · exact hih.2.2 z.messageGroupId z.messageId hone.1
      · exact hih.1 z hz2
    · intro mid
      rw [show (q.registerAll (m :: ms)).1 = ((q.registerOne m).1.registerAll ms).1 from rfl]
      rw [hih.2.1 mid, hone.2.1 mid]
    · intro gid mid hm
      exact hih.2.2 gid mid (hone.2.2 gid mid hm)

theorem FifoQueue.registerAll_nonzero_mem_fifo (q : FifoQueue) (ms : List SqsMessage)
    (hall : ∀ m ∈ ms, ¬ m.visibilityTimeout = 0) :
    ∀ m ∈ ms, memById (q.registerAll ms).1.inflight m.messageId = true := by
  induction ms generalizing q with
  | nil => simp
  | cons m ms ih =>
    have hm0 := hall m (List.mem_cons_self m ms)
    have hone := FifoQueue.registerOne_nonzero_mem_fifo q m hm0
    have hih := ih (q.registerOne m).1 (fun z hz => hall z (List.mem_cons_of_mem m hz))
    intro z hz
    rcases List.mem_cons.mp hz with rfl | hz2
    · -- membership established by the head registration, preserved by the rest
      have : ∀ (qq : FifoQueue) (ms2 : List SqsMessage) (mid : String),
          (∀ m2 ∈ ms2, ¬ m2.visibilityTimeout = 0) →
          memById qq.inflight mid = true →
          memById (qq.registerAll ms2).1.inflight mid = true := by
        intro qq ms2
        induction ms2 generalizing qq with
        | nil => exact fun mid _ h => h
        | cons m2 ms2 ih2 =>
          intro mid hall2 hmem
          exact ih2 (qq.registerOne m2).1 mid
            (fun z3 hz3 => hall2 z3 (List.mem_cons_of_mem m2 hz3))
            ((FifoQueue.registerOne_nonzero_mem_fifo qq m2
              (hall2 m2 (List.mem_cons_self m2 ms2))).2.2 mid hmem)
      exact this (q.registerOne z).1 ms z.messageId
        (fun z3 hz3 => hall z3 (List.mem_cons_of_mem z hz3)) hone.1
    · exact hih z hz2

theorem collectFromGroups_eq_nil (maxRc : Option Nat) (vt now : Int) (num : Nat)
    {q : FifoQueue} (succ dlq : List SqsMessage) (h : q.messageGroupQueue = []) :
    q.collectFromGroups maxRc vt now num succ dlq = (q, succ, dlq) := by
  rw [FifoQueue.collectFromGroups, h]

theorem collectFromGroups_eq_cons (maxRc : Option Nat) (vt now : Int) (num : Nat)
    {q : FifoQueue} {gid : Option String} {queueRest : List (Option String)}
    (succ dlq : List SqsMessage) (h : q.messageGroupQueue = gid :: queueRest) :
    q.collectFromGroups maxRc vt now num succ dlq =
      (if ((alGet q.messageGroups gid).getD []).isEmpty then
        FifoQueue.collectFromGroups { q with messageGroupQueue := queueRest }
          maxRc vt now num succ dlq
      else if (collectMessages maxRc vt now num ((alGet q.messageGroups gid).getD [])
          succ dlq).successful.length = num then
        ({ q with
            messageGroupQueue := queueRest,
            inflightGroups := setAdd q.inflightGroups gid,
            messageGroups := alSet q.messageGroups gid
              (collectMessages maxRc vt now num ((alGet q.messageGroups gid).getD [])
                succ dlq).heap },
          (collectMessages maxRc vt now num ((alGet q.messageGroups gid).getD [])
            succ dlq).successful,
          (collectMessages maxRc vt now num ((alGet q.messageGroups gid).getD [])
            succ dlq).dead_letter_messages)
      else
        FifoQueue.collectFromGroups
          { q with
            messageGroupQueue := queueRest,
            inflightGroups := setAdd q.inflightGroups gid,
            messageGroups := alSet q.messageGroups gid
              (collectMessages maxRc vt now num ((alGet q.messageGroups gid).getD [])
                succ dlq).heap }
          maxRc vt now num
          (collectMessages maxRc vt now num ((alGet q.messageGroups gid).getD [])
            succ dlq).successful
          (collectMessages maxRc vt now num ((alGet q.messageGroups gid).getD [])
            succ dlq).dead_letter_messages) := by
  rw [FifoQueue.collectFromGroups, h]

/-- Invariants of the outer group loop of `FifoQueue.receive`, lifted from
`collectMessages_invariants`, together with the facts that the collection
phase never touches `inflight` or the queue arn. -/
theorem collectFromGroups_invariants (maxRc : Option Nat) (vt now : Int) (num : Nat) :
    ∀ (q : FifoQueue) (succ dlq : List SqsMessage),
    ((∀ m ∈ succ, m.visibilityTimeout = vt) →
      ∀ m ∈ (q.collectFromGroups maxRc vt now num succ dlq).2.1,
        m.visibilityTimeout = vt) ∧
    (∀ k, maxRc = some k → 1 ≤ k →
      (∀ m ∈ succ, m.receiveCount ≤ k) →
      (∀ m ∈ dlq, k < m.receiveCount) →
      (∀ m ∈ (q.collectFromGroups maxRc vt now num succ dlq).2.1,
        m.receiveCount ≤ k) ∧
      (∀ m ∈ (q.collectFromGroups maxRc vt now num succ dlq).2.2,
        k < m.receiveCount)) ∧
    (q.collectFromGroups maxRc vt now num succ dlq).1.inflight = q.inflight ∧
    (q.collectFromGroups maxRc vt now num succ dlq).1.queueArn = q.queueArn := by
  have main : ∀ (n : Nat) (q : FifoQueue) (succ dlq : List SqsMessage),
      q.messageGroupQueue.length = n →
      ((∀ m ∈ succ, m.visibilityTimeout = vt) →
        ∀ m ∈ (q.collectFromGroups maxRc vt now num succ dlq).2.1,
          m.visibilityTimeout = vt) ∧
      (∀ k, maxRc = some k → 1 ≤ k →
        (∀ m ∈ succ, m.receiveCount ≤ k) →
        (∀ m ∈ dlq, k < m.receiveCount) →
        (∀ m ∈ (q.collectFromGroups maxRc vt now num succ dlq).2.1,
          m.receiveCount ≤ k) ∧
        (∀ m ∈ (q.collectFromGroups maxRc vt now num succ dlq).2.2,
          k < m.receiveCount)) ∧
      (q.collectFromGroups maxRc vt now num succ dlq).1.inflight = q.inflight ∧
      (q.collectFromGroups maxRc vt now num succ dlq).1.queueArn = q.queueArn := by
    intro n
    induction n using Nat.strong_induction_on with
    | _ n ih =>
      intro q succ dlq hn
      rcases hq : q.messageGroupQueue with _ | ⟨gid, queueRest⟩
      · rw [collectFromGroups_eq_nil maxRc vt now num succ dlq hq]
        exact ⟨fun h => h, fun k hk h1 hs hd => ⟨hs, hd⟩, rfl, rfl⟩
      · have hlen : queueRest.length < n := by
          rw [hq] at hn
          simp only [List.length_cons] at hn
          omega
        rw [collectFromGroups_eq_cons maxRc vt now num succ dlq hq]
        by_cases hempty : ((alGet q.messageGroups gid).getD []).isEmpty
        · rw [if_pos hempty]
          exact ih queueRest.length hlen _ succ dlq rfl
        · rw [if_neg hempty]
          have hinv := collectMessages_invariants maxRc vt now num
            ((alGet q.messageGroups gid).getD []) succ dlq
          by_cases hfull : (collectMessages maxRc vt now num
              ((alGet q.messageGroups gid).getD []) succ dlq).successful.length = num
          · rw [if_pos hfull]
            exact ⟨fun h => hinv.1 h, fun k hk h1 hs hd => hinv.2 k hk h1 hs hd, rfl, rfl⟩
          · rw [if_neg hfull]
            have hrec := ih queueRest.length hlen
              { q with
                messageGroupQueue := queueRest,
                inflightGroups := setAdd q.inflightGroups gid,
                messageGroups := alSet q.messageGroups gid
                  (collectMessages maxRc vt now num ((alGet q.messageGroups gid).getD [])
                    succ dlq).heap }
              (collectMessages maxRc vt now num ((alGet q.messageGroups gid).getD [])
                succ dlq).successful
              (collectMessages maxRc vt now num ((alGet q.messageGroups gid).getD [])
                succ dlq).dead_letter_messages
              rfl
            refine ⟨?_, ?_, hrec.2.2.1, hrec.2.2.2⟩
            · intro h
              exact hrec.1 (hinv.1 h)
            · intro k hk h1 hs hd
              exact hrec.2.1 k hk h1 (hinv.2 k hk h1 hs hd).1 (hinv.2 k hk h1 hs hd).2
  intro q succ dlq
  exact main q.messageGroupQueue.length q succ dlq rfl

def dlrStdQueue : StandardQueue :=
  { sampleStandardQueue with
    maxReceiveCount := some 1,
    visible := [{ sampleMessage "a" 1 with receiveCount := 1 },
                { sampleMessage "b" 2 with receiveCount := 0 }] }

def dlrFifoQueue : FifoQueue :=
  { sampleFifoQueue with
    maxReceiveCount := some 1,
    messageGroups := [(some "g", [{ sampleMessage "a" 1 with receiveCount := 1 },
                                  { sampleMessage "b" 2 with receiveCount := 0 }])],
    messageGroupQueue := [some "g"] }

/-- C3: on both queue types, with a configured `max_receive_count` (validated
to lie in 1..1000 by the provider), `receive` routes every dequeued message
whose incremented `receive_count` exceeds the limit into the result's
`dead_letter_messages` list, and every message in `successful` is at or
below the limit. -/
theorem receive_dead_letter_routing (k : Nat) (hk : 1 ≤ k)
    (qs : StandardQueue) (hqs : qs.maxReceiveCount = some k)
    (numS : Nat) (vtS : Option Int) (nowS : Int)
    (qf : FifoQueue) (hqf : qf.maxReceiveCount = some k)
    (numF : Nat) (vtF : Option Int) (nowF : Int) :
    ((∀ m ∈ (qs.receive numS vtS nowS).2.successful, m.receiveCount ≤ k) ∧
     (∀ m ∈ (qs.receive numS vtS nowS).2.dead_letter_messages, k < m.receiveCount)) ∧
    ((∀ m ∈ (qf.receive numF vtF nowF).2.successful, m.receiveCount ≤ k) ∧
     (∀ m ∈ (qf.receive numF vtF nowF).2.dead_letter_messages, k < m.receiveCount)) := by
  refine ⟨⟨?_, ?_⟩, ?_, ?_⟩
  · intro m hm
    have hm2 : m ∈ (StandardQueue.registerAll
        ((collectMessages qs.maxReceiveCount
          (resolveVt vtS qs.visibilityTimeoutAttr) nowS numS
          qs.visible [] []).dead_letter_messages.foldl StandardQueue.syncMessage
          { qs with visible := (collectMessages qs.maxReceiveCount
              (resolveVt vtS qs.visibilityTimeoutAttr) nowS numS qs.visible [] []).heap })
        (collectMessages qs.maxReceiveCount (resolveVt vtS qs.visibilityTimeoutAttr)
          nowS numS qs.visible [] []).successful).2.1 := hm
    rw [StandardQueue.registerAll_successful] at hm2
    rcases List.mem_map.mp hm2 with ⟨m0, hm0, rfl⟩
    rw [hqs] at hm0
    show m0.receiveCount ≤ k
    exact ((collectMessages_invariants (some k)
      (resolveVt vtS qs.visibilityTimeoutAttr) nowS numS qs.visible [] []).2
      k rfl hk (by simp) (by simp)).1 m0 hm0
  · intro m hm
    have hm2 : m ∈ (collectMessages qs.maxReceiveCount
        (resolveVt vtS qs.visibilityTimeoutAttr) nowS numS
        qs.visible [] []).dead_letter_messages := hm
    rw [hqs] at hm2
    exact ((collectMessages_invariants (some k)
      (resolveVt vtS qs.visibilityTimeoutAttr) nowS numS qs.visible [] []).2
      k rfl hk (by simp) (by simp)).2 m hm2
  · intro m hm
    have hm2 : m ∈ (FifoQueue.registerAll
        ((qf.collectFromGroups qf.maxReceiveCount
          (resolveVt vtF qf.visibilityTimeoutAttr) nowF numF [] []).2.2.foldl
          FifoQueue.syncMessage
          (qf.collectFromGroups qf.maxReceiveCount
            (resolveVt vtF qf.visibilityTimeoutAttr) nowF numF [] []).1)
        (qf.collectFromGroups qf.maxReceiveCount
          (resolveVt vtF qf.visibilityTimeoutAttr) nowF numF [] []).2.1).2.1 := hm
    rw [FifoQueue.registerAll_successful_fifo] at hm2
    rcases List.mem_map.mp hm2 with ⟨m0, hm0, rfl⟩
    rw [hqf] at hm0
    show m0.receiveCount ≤ k
    exact (((collectFromGroups_invariants (some k)
      (resolveVt vtF qf.visibilityTimeoutAttr) nowF numF) qf [] []).2.1
      k rfl hk (by simp) (by simp)).1 m0 hm0
  · intro m hm
    have hm2 : m ∈ (qf.collectFromGroups qf.maxReceiveCount
        (resolveVt vtF qf.visibilityTimeoutAttr) nowF numF [] []).2.2 := hm
    rw [hqf] at hm2
    exact (((collectFromGroups_invariants (some k)
      (resolveVt vtF qf.visibilityTimeoutAttr) nowF numF) qf [] []).2.1
      k rfl hk (by simp) (by simp)).2 m hm2

/-- C3 witness. -/
theorem receive_dead_letter_routing_witness :
    1 ≤ 1 ∧ dlrStdQueue.maxReceiveCount = some 1 ∧
    dlrFifoQueue.maxReceiveCount = some 1 ∧
    (((∀ m ∈ (dlrStdQueue.receive 10 none 100).2.successful, m.receiveCount ≤ 1) ∧
      (∀ m ∈ (dlrStdQueue.receive 10 none 100).2.dead_letter_messages,
        1 < m.receiveCount)) ∧
     ((∀ m ∈ (dlrFifoQueue.receive 10 none 100).2.successful, m.receiveCount ≤ 1) ∧
      (∀ m ∈ (dlrFifoQueue.receive 10 none 100).2.dead_letter_messages,
        1 < m.receiveCount))) :=
  ⟨by decide, rfl, rfl,
    receive_dead_letter_routing 1 (by decide) dlrStdQueue rfl 10 none 100
      dlrFifoQueue rfl 10 none 100⟩

theorem StandardQueue.foldl_syncMessage_inflight (ms : List SqsMessage) :
    ∀ (q : StandardQueue) (mid : String),
    memById (ms.foldl StandardQueue.syncMessage q).inflight mid
      = memById q.inflight mid := by
  induction ms with
  | nil => intro q mid; rfl
  | cons m ms ih =>
    intro q mid
    rw [List.foldl_cons, ih]
    exact memById_syncMessageList _ _ _

theorem FifoQueue.foldl_syncMessage_inflight_fifo (ms : List SqsMessage) :
    ∀ (q : FifoQueue) (mid : String),
    memById (ms.foldl FifoQueue.syncMessage q).inflight mid
      = memById q.inflight mid := by
  induction ms with
  | nil => intro q mid; rfl
  | cons m ms ih =>
    intro q mid
    rw [List.foldl_cons, ih]
    exact memById_syncMessageList _ _ _

/-- `StandardQueue.receive` with effective timeout zero: every returned
message is pushed straight back to `visible` and `inflight` is untouched. -/
theorem StandardQueue.receive_zero (q : StandardQueue) (num : Nat)
    (vt0 : Option Int) (now : Int)
    (hz : resolveVt vt0 q.visibilityTimeoutAttr = 0) :
    (∀ m ∈ (q.receive num vt0 now).2.successful,
      memById (q.receive num vt0 now).1.visible m.messageId = true) ∧
    (∀ mid, memById (q.receive num vt0 now).1.inflight mid
      = memById q.inflight mid) := by
  have hvt := (collectMessages_invariants q.maxReceiveCount
    (resolveVt vt0 q.visibilityTimeoutAttr) now num q.visible [] []).1 (by simp)
  have hall : ∀ m ∈ (collectMessages q.maxReceiveCount
      (resolveVt vt0 q.visibilityTimeoutAttr) now num q.visible [] []).successful,
      m.visibilityTimeout = 0 := fun m hm => by rw [hvt m hm, hz]
  have hreg := StandardQueue.registerAll_zero_mem
    ((collectMessages q.maxReceiveCount (resolveVt vt0 q.visibilityTimeoutAttr)
      now num q.visible [] []).dead_letter_messages.foldl StandardQueue.syncMessage
      { q with visible := (collectMessages q.maxReceiveCount
        (resolveVt vt0 q.visibilityTimeoutAttr) now num q.visible [] []).heap })
    (collectMessages q.maxReceiveCount (resolveVt vt0 q.visibilityTimeoutAttr)
      now num q.visible [] []).successful hall
  constructor
  · intro z hzm
    have hz3 : z ∈ (StandardQueue.registerAll
        ((collectMessages q.maxReceiveCount (resolveVt vt0 q.visibilityTimeoutAttr)
          now num q.visible [] []).dead_letter_messages.foldl StandardQueue.syncMessage
          { q with visible := (collectMessages q.maxReceiveCount
            (resolveVt vt0 q.visibilityTimeoutAttr) now num q.visible [] []).heap })
        (collectMessages q.maxReceiveCount (resolveVt vt0 q.visibilityTimeoutAttr)
          now num q.visible [] []).successful).2.1 := hzm
    rw [StandardQueue.registerAll_successful] at hz3
    rcases List.mem_map.mp hz3 with ⟨m0, hm0, rfl⟩
    exact hreg.1 m0 hm0
  · intro mid
    have h1 : memById (q.receive num vt0 now).1.inflight mid =
        memById ((collectMessages q.maxReceiveCount
          (resolveVt vt0 q.visibilityTimeoutAttr) now num
          q.visible [] []).dead_letter_messages.foldl StandardQueue.syncMessage
          { q with visible := (collectMessages q.maxReceiveCount
            (resolveVt vt0 q.visibilityTimeoutAttr)
            now num q.visible [] []).heap }).inflight mid := hreg.2.1 mid
    rw [h1, StandardQueue.foldl_syncMessage_inflight]

/-- `StandardQueue.receive` with a non-zero effective timeout: every returned
message lands in `inflight`. -/
theorem StandardQueue.receive_nonzero (q : StandardQueue) (num : Nat)
    (vt0 : Option Int) (now : Int)
    (hnz : ¬ resolveVt vt0 q.visibilityTimeoutAttr = 0) :
    ∀ m ∈ (q.receive num vt0 now).2.successful,
      memById (q.receive num vt0 now).1.inflight m.messageId = true := by
  have hvt := (collectMessages_invariants q.maxReceiveCount
    (resolveVt vt0 q.visibilityTimeoutAttr) now num q.visible [] []).1 (by simp)
  have hall : ∀ m ∈ (collectMessages q.maxReceiveCount
      (resolveVt vt0 q.visibilityTimeoutAttr) now num q.visible [] []).successful,
      ¬ m.visibilityTimeout = 0 := fun m hm => by rw [hvt m hm]; exact hnz
  have hreg := StandardQueue.registerAll_nonzero_mem
    ((collectMessages q.maxReceiveCount (resolveVt vt0 q.visibilityTimeoutAttr)
      now num q.visible [] []).dead_letter_messages.foldl StandardQueue.syncMessage
      { q with visible := (collectMessages q.maxReceiveCount
        (resolveVt vt0 q.visibilityTimeoutAttr) now num q.visible [] []).heap })
    (collectMessages q.maxReceiveCount (resolveVt vt0 q.visibilityTimeoutAttr)
      now num q.visible [] []).successful hall
  intro z hzm
  have hz3 : z ∈ (StandardQueue.registerAll
      ((collectMessages q.maxReceiveCount (resolveVt vt0 q.visibilityTimeoutAttr)
        now num q.visible [] []).dead_letter_messages.foldl StandardQueue.syncMessage
        { q with visible := (collectMessages q.maxReceiveCount
          (resolveVt vt0 q.visibilityTimeoutAttr) now num q.visible [] []).heap })
      (collectMessages q.maxReceiveCount (resolveVt vt0 q.visibilityTimeoutAttr)
        now num q.visible [] []).successful).2.1 := hzm
  rw [StandardQueue.registerAll_successful] at hz3
  rcases List.mem_map.mp hz3 with ⟨m0, hm0, rfl⟩
  exact hreg.1 m0 hm0

/-- `FifoQueue.receive` with effective timeout zero: every returned message
is re-enqueued in its own message group via `_put_message` and `inflight` is
untouched. -/
theorem FifoQueue.receive_zero_fifo (q : FifoQueue) (num : Nat)
    (vt0 : Option Int) (now : Int)
    (hz : resolveVt vt0 q.visibilityTimeoutAttr = 0) :
    (∀ m ∈ (q.receive num vt0 now).2.successful,
      memInGroup (q.receive num vt0 now).1 m.messageGroupId m.messageId = true) ∧
    (∀ mid, memById (q.receive num vt0 now).1.inflight mid
      = memById q.inflight mid) := by
  have hvt := ((collectFromGroups_invariants q.maxReceiveCount
    (resolveVt vt0 q.visibilityTimeoutAttr) now num) q [] []).1 (by simp)
  have hall : ∀ m ∈ (q.collectFromGroups q.maxReceiveCount
      (resolveVt vt0 q.visibilityTimeoutAttr) now num [] []).2.1,
      m.visibilityTimeout = 0 := fun m hm => by rw [hvt m hm, hz]
  have hreg := FifoQueue.registerAll_zero_mem_fifo
    ((q.collectFromGroups q.maxReceiveCount (resolveVt vt0 q.visibilityTimeoutAttr)
      now num [] []).2.2.foldl FifoQueue.syncMessage
      (q.collectFromGroups q.maxReceiveCount (resolveVt vt0 q.visibilityTimeoutAttr)
        now num [] []).1)
    (q.collectFromGroups q.maxReceiveCount (resolveVt vt0 q.visibilityTimeoutAttr)
      now num [] []).2.1 hall
  constructor
  · intro z hzm
    have hz3 : z ∈ (FifoQueue.registerAll
        ((q.collectFromGroups q.maxReceiveCount (resolveVt vt0 q.visibilityTimeoutAttr)
          now num [] []).2.2.foldl FifoQueue.syncMessage
          (q.collectFromGroups q.maxReceiveCount (resolveVt vt0 q.visibilityTimeoutAttr)
            now num [] []).1)
        (q.collectFromGroups q.maxReceiveCount (resolveVt vt0 q.visibilityTimeoutAttr)
          now num [] []).2.1).2.1 := hzm
    rw [FifoQueue.registerAll_successful_fifo] at hz3
    rcases List.mem_map.mp hz3 with ⟨m0, hm0, rfl⟩
    exact hreg.1 m0 hm0
  · intro mid
    have h1 : memById (q.receive num vt0 now).1.inflight mid =
        memById ((q.collectFromGroups q.maxReceiveCount
          (resolveVt vt0 q.visibilityTimeoutAttr) now num [] []).2.2.foldl
          FifoQueue.syncMessage
          (q.collectFromGroups q.maxReceiveCount (resolveVt vt0 q.visibilityTimeoutAttr)
            now num [] []).1).inflight mid := hreg.2.1 mid
    rw [h1, FifoQueue.foldl_syncMessage_inflight_fifo,
      ((collectFromGroups_invariants q.maxReceiveCount
        (resolveVt vt0 q.visibilityTimeoutAttr) now num) q [] []).2.2.1]

/-- `FifoQueue.receive` with a non-zero effective timeout: every returned
message lands in `inflight`. -/
theorem FifoQueue.receive_nonzero_fifo (q : FifoQueue) (num : Nat)
    (vt0 : Option Int) (now : Int)
    (hnz : ¬ resolveVt vt0 q.visibilityTimeoutAttr = 0) :
    ∀ m ∈ (q.receive num vt0 now).2.successful,
      memById (q.receive num vt0 now).1.inflight m.messageId = true := by
  have hvt := ((collectFromGroups_invariants q.maxReceiveCount
    (resolveVt vt0 q.visibilityTimeoutAttr) now num) q [] []).1 (by simp)
  have hall : ∀ m ∈ (q.collectFromGroups q.maxReceiveCount
      (resolveVt vt0 q.visibilityTimeoutAttr) now num [] []).2.1,
      ¬ m.visibilityTimeout = 0 := fun m hm => by rw [hvt m hm]; exact hnz
  have hreg := FifoQueue.registerAll_nonzero_mem_fifo
    ((q.collectFromGroups q.maxReceiveCount (resolveVt vt0 q.visibilityTimeoutAttr)
      now num [] []).2.2.foldl FifoQueue.syncMessage
      (q.collectFromGroups q.maxReceiveCount (resolveVt vt0 q.visibilityTimeoutAttr)
        now num [] []).1)
    (q.collectFromGroups q.maxReceiveCount (resolveVt vt0 q.visibilityTimeoutAttr)
      now num [] []).2.1 hall
  intro z hzm
  have hz3 : z ∈ (FifoQueue.registerAll
      ((q.collectFromGroups q.maxReceiveCount (resolveVt vt0 q.visibilityTimeoutAttr)
        now num [] []).2.2.foldl FifoQueue.syncMessage
        (q.collectFromGroups q.maxReceiveCount (resolveVt vt0 q.visibilityTimeoutAttr)
          now num [] []).1)
      (q.collectFromGroups q.maxReceiveCount (resolveVt vt0 q.visibilityTimeoutAttr)
        now num [] []).2.1).2.1 := hzm
  rw [FifoQueue.registerAll_successful_fifo] at hz3
  rcases List.mem_map.mp hz3 with ⟨m0, hm0, rfl⟩
  exact hreg m0 hm0

def c4StdZero : StandardQueue :=
  { sampleStandardQueue with
    visibilityTimeoutAttr := 0,
    visible := [{ sampleMessage "a" 1 with visibilityTimeout := 5 }] }

def c4StdNZ : StandardQueue :=
  { sampleStandardQueue with visible := [sampleMessage "a" 1] }

def c4FifoZero : FifoQueue :=
  { sampleFifoQueue with
    visibilityTimeoutAttr := 0,
    messageGroups := [(some "g", [sampleMessage "a" 1])],
    messageGroupQueue := [some "g"] }

def c4FifoNZ : FifoQueue :=
  { sampleFifoQueue with
    messageGroups := [(some "g", [sampleMessage "a" 1])],
    messageGroupQueue := [some "g"] }

/-- C4: when the effective visibility timeout of a `receive` call resolves to
zero, every successfully returned message goes straight back to the visible
structure (the `visible` heap for standard queues, its own message group via
`_put_message` for FIFO queues) and the `inflight` set is unchanged, so an
immediately following `receive` can retrieve it again; with a non-zero
effective timeout every returned message is added to `inflight` instead. -/
theorem receive_visibility_timeout_zero (qs : StandardQueue) (numS : Nat)
    (vtS : Option Int) (nowS : Int)
    (qf : FifoQueue) (numF : Nat) (vtF : Option Int) (nowF : Int) :
    (resolveVt vtS qs.visibilityTimeoutAttr = 0 →
      (∀ m ∈ (qs.receive numS vtS nowS).2.successful,
        memById (qs.receive numS vtS nowS).1.visible m.messageId = true) ∧
      (∀ mid, memById (qs.receive numS vtS nowS).1.inflight mid
        = memById qs.inflight mid)) ∧
    (¬ resolveVt vtS qs.visibilityTimeoutAttr = 0 →
      ∀ m ∈ (qs.receive numS vtS nowS).2.successful,
        memById (qs.receive numS vtS nowS).1.inflight m.messageId = true) ∧
    (resolveVt vtF qf.visibilityTimeoutAttr = 0 →
      (∀ m ∈ (qf.receive numF vtF nowF).2.successful,
        memInGroup (qf.receive numF vtF nowF).1 m.messageGroupId m.messageId = true) ∧
      (∀ mid, memById (qf.receive numF vtF nowF).1.inflight mid
        = memById qf.inflight mid)) ∧
    (¬ resolveVt vtF qf.visibilityTimeoutAttr = 0 →
      ∀ m ∈ (qf.receive numF vtF nowF).2.successful,
        memById (qf.receive numF vtF nowF).1.inflight m.messageId = true) :=
  ⟨fun h => StandardQueue.receive_zero qs numS vtS nowS h,
   fun h => StandardQueue.receive_nonzero qs numS vtS nowS h,
   fun h => FifoQueue.receive_zero_fifo qf numF vtF nowF h,
   fun h => FifoQueue.receive_nonzero_fifo qf numF vtF nowF h⟩

/-- C4 witness. -/
theorem receive_visibility_timeout_zero_witness :
    (resolveVt none c4StdZero.visibilityTimeoutAttr = 0 ∧
      (∀ m ∈ (c4StdZero.receive 1 none 100).2.successful,
        memById (c4StdZero.receive 1 none 100).1.visible m.messageId = true) ∧
      (∀ mid, memById (c4StdZero.receive 1 none 100).1.inflight mid
        = memById c4StdZero.inflight mid)) ∧
    (¬ resolveVt none c4StdNZ.visibilityTimeoutAttr = 0 ∧
      ∀ m ∈ (c4StdNZ.receive 1 none 100).2.successful,
        memById (c4StdNZ.receive 1 none 100).1.inflight m.messageId = true) ∧
    (resolveVt none c4FifoZero.visibilityTimeoutAttr = 0 ∧
      (∀ m ∈ (c4FifoZero.receive 1 none 100).2.successful,
        memInGroup (c4FifoZero.receive 1 none 100).1 m.messageGroupId
          m.messageId = true) ∧
      (∀ mid, memById (c4FifoZero.receive 1 none 100).1.inflight mid
        = memById c4FifoZero.inflight mid)) ∧
    (¬ resolveVt none c4FifoNZ.visibilityTimeoutAttr = 0 ∧
      ∀ m ∈ (c4FifoNZ.receive 1 none 100).2.successful,
        memById (c4FifoNZ.receive 1 none 100).1.inflight m.messageId = true) :=
  ⟨⟨by decide, (receive_visibility_timeout_zero c4StdZero 1 none 100
      c4FifoZero 1 none 100).1 (by decide)⟩,
   ⟨by decide, (receive_visibility_timeout_zero c4StdNZ 1 none 100
      c4FifoNZ 1 none 100).2.1 (by decide)⟩,
   ⟨by decide, (receive_visibility_timeout_zero c4StdZero 1 none 100
      c4FifoZero 1 none 100).2.2.1 (by decide)⟩,
   ⟨by decide, (receive_visibility_timeout_zero c4StdNZ 1 none 100
      c4FifoNZ 1 none 100).2.2.2 (by decide)⟩⟩

/-! ### Sample states for deletion claims -/

def c5Handle : ReceiptHandle := ⟨sampleStandardQueue.queueArn, "m", 10⟩

def c5Msg : SqsMessage :=
  { sampleMessage "m" 1 with
    lastReceived := some 10,
    receiptHandles := [c5Handle] }

def c5Std : StandardQueue :=
  { sampleStandardQueue with
    inflight := [c5Msg],
    receipts := [(c5Handle, c5Msg)] }

def c5FifoHandle : ReceiptHandle := ⟨sampleFifoQueue.queueArn, "fm", 10⟩

def c5FifoMsg : SqsMessage :=
  { sampleMessage "fm" 1 with
    lastReceived := some 10,
    receiptHandles := [c5FifoHandle] }

def c5Fifo : FifoQueue :=
  { sampleFifoQueue with
    inflight := [c5FifoMsg],
    receipts := [(c5FifoHandle, c5FifoMsg)] }

def c5StdHandle2 : ReceiptHandle := ⟨sampleStandardQueue.queueArn, "zz", 0⟩

/-- C5 counterexample: on a standard queue an expired receipt handle that is
still registered in `receipts` does not silently no-op; the delete goes
through and mutates the queue (the base `_pre_delete_checks` is a no-op, and
`remove` only returns early for handles absent from `receipts`). -/
theorem standard_remove_expired_handle_deletes :
    ((100 : Int) - c5Handle.lastReceived > c5Msg.visibilityTimeout) ∧
    alGet c5Std.receipts c5Handle = some c5Msg ∧
    c5Std.remove c5Handle = .ok { c5Std with inflight := [], receipts := [] } ∧
    ¬ c5Std.remove c5Handle = .ok c5Std :=
  ⟨by decide, by decide, rfl, fun hc => by
    rw [show c5Std.remove c5Handle
        = Except.ok { c5Std with inflight := [], receipts := [] } from rfl] at hc
    injection hc with h2
    exact absurd h2 (by decide)⟩

/-- C5 (amended): a FIFO delete whose resolved handle is expired (`now`
minus the handle-recorded receive time exceeds the message's current
visibility timeout) is rejected with InvalidParameterValue; a standard
delete with a queue-valid handle is never rejected, and a handle absent
from `receipts` is a silent no-op. An expired handle still present in
`receipts` on a standard queue deletes the message instead of no-opping. -/
theorem remove_expired_handle_checks (qf : FifoQueue) (h : ReceiptHandle)
    (now : Int) (m : SqsMessage)
    (harn : qf.queueArn = h.queueArn)
    (hget : alGet qf.receipts h = some m)
    (hexp : now - h.lastReceived > m.visibilityTimeout)
    (qs : StandardQueue) (h2 : ReceiptHandle)
    (harn2 : qs.queueArn = h2.queueArn) :
    qf.remove h now = .error (.invalidParameterValue
      "Value for parameter ReceiptHandle is invalid. Reason: The receipt handle has expired.") ∧
    (∃ q2, qs.remove h2 = .ok q2) ∧
    (alGet qs.receipts h2 = none → qs.remove h2 = .ok qs) := by
  refine ⟨?_, ?_, ?_⟩
  · rw [FifoQueue.remove, if_neg (not_not_intro harn), hget]
    show (match FifoQueue._pre_delete_checks m h now with
      | .error e => Except.error e
      | .ok _ => _) = _
    rw [FifoQueue._pre_delete_checks, if_pos hexp]
  · rcases halg : alGet qs.receipts h2 with _ | sm
    · exact ⟨qs, by rw [StandardQueue.remove, if_neg (not_not_intro harn2), halg]⟩
    · exact ⟨_, by rw [StandardQueue.remove, if_neg (not_not_intro harn2), halg]⟩
  · intro hnone
    rw [StandardQueue.remove, if_neg (not_not_intro harn2), hnone]

/-- C5 witness. -/
theorem remove_expired_handle_checks_witness :
    c5Fifo.queueArn = c5FifoHandle.queueArn ∧
    alGet c5Fifo.receipts c5FifoHandle = some c5FifoMsg ∧
    ((100 : Int) - c5FifoHandle.lastReceived > c5FifoMsg.visibilityTimeout) ∧
    sampleStandardQueue.queueArn = c5StdHandle2.queueArn ∧
    (c5Fifo.remove c5FifoHandle 100 = .error (.invalidParameterValue
      "Value for parameter ReceiptHandle is invalid. Reason: The receipt handle has expired.") ∧
     (∃ q2, sampleStandardQueue.remove c5StdHandle2 = .ok q2) ∧
     (alGet sampleStandardQueue.receipts c5StdHandle2 = none →
       sampleStandardQueue.remove c5StdHandle2 = .ok sampleStandardQueue)) :=
  ⟨rfl, by decide, by decide, rfl,
    remove_expired_handle_checks c5Fifo c5FifoHandle 100 c5FifoMsg rfl (by decide)
      (by decide) sampleStandardQueue c5StdHandle2 rfl⟩

theorem alRemove_cons [DecidableEq κ] (k2 : κ) (v : ν) (rest : List (κ × ν)) (k : κ) :
    alRemove ((k2, v) :: rest) k =
      if k2 = k then alRemove rest k else (k2, v) :: alRemove rest k := by
  by_cases hk : k2 = k <;> simp [alRemove, List.filter_cons, hk]

theorem alGet_alRemove [DecidableEq κ] (l : List (κ × ν)) (k j : κ) :
    alGet (alRemove l k) j = if j = k then none else alGet l j := by
  induction l with
  | nil =>
    show (none : Option ν) = if j = k then none else none
    split <;> rfl
  | cons p rest ih =>
    rcases p with ⟨k2, v⟩
    rw [alRemove_cons]
    by_cases hk : k2 = k
    · rw [if_pos hk, ih]
      subst hk
      by_cases hj : j = k2
      · rw [if_pos hj, if_pos hj]
      · rw [if_neg hj, if_neg hj]
        show alGet rest j = if k2 = j then some v else alGet rest j
        rw [if_neg (fun hc => hj hc.symm)]
    · rw [if_neg hk]
      show (if k2 = j then some v else alGet (alRemove rest k) j) = _
      by_cases hj : k2 = j
      · rw [if_pos hj]
        subst hj
        rw [if_neg hk]
        show some v = if k2 = k2 then some v else alGet rest k2
        rw [if_pos rfl]
      · rw [if_neg hj, ih]
        by_cases hjk : j = k
        · rw [if_pos hjk, if_pos hjk]
        · rw [if_neg hjk, if_neg hjk]
          show alGet rest j = if k2 = j then some v else alGet rest j
          rw [if_neg hj]

theorem alGet_foldl_alRemove_none [DecidableEq κ] (hs : List κ) :
    ∀ (r : List (κ × ν)) (h : κ), alGet r h = none →
    alGet (hs.foldl (fun r2 k => alRemove r2 k) r) h = none := by
  induction hs with
  | nil => exact fun r h hh => hh
  | cons k hs ih =>
    intro r h hh
    rw [List.foldl_cons]
    refine ih _ h ?_
    rw [alGet_alRemove]
    split
    · rfl
    · exact hh

theorem alGet_foldl_alRemove_mem [DecidableEq κ] (hs : List κ) :
    ∀ (r : List (κ × ν)) (h : κ), h ∈ hs →
    alGet (hs.foldl (fun r2 k => alRemove r2 k) r) h = none := by
  induction hs with
  | nil =>
    intro r h hh
    exact absurd hh (List.not_mem_nil h)
  | cons k hs ih =>
    intro r h hh
    rw [List.foldl_cons]
    rcases List.mem_cons.mp hh with rfl | hmem
    · refine alGet_foldl_alRemove_none hs _ h ?_
      rw [alGet_alRemove]
      rw [if_pos rfl]
    · exact ih _ h hmem

theorem alGet_map_keyfix_none [DecidableEq κ] (f : (κ × ν) → (κ × ν))
    (hf : ∀ p, (f p).1 = p.1) (l : List (κ × ν)) (k : κ)
    (h : alGet l k = none) : alGet (l.map f) k = none := by
  induction l with
  | nil => rfl
  | cons p rest ih =>
    rw [List.map_cons]
    show (if (f p).1 = k then some (f p).2 else alGet (rest.map f) k) = none
    have h2 : (if p.1 = k then some p.2 else alGet rest k) = none := h
    rw [hf p]
    by_cases hk : p.1 = k
    · rw [if_pos hk] at h2
      exact absurd h2 (by simp)
    · rw [if_neg hk] at h2
      rw [if_neg hk]
      exact ih h2

theorem alGet_syncReceipts_none (r : List (ReceiptHandle × SqsMessage)) (m : SqsMessage)
    (h : ReceiptHandle) (hh : alGet r h = none) :
    alGet (syncReceipts r m) h = none :=
  alGet_map_keyfix_none _ (fun p => by
    show (if p.2.messageId = m.messageId then (p.1, m) else p).1 = p.1
    split <;> rfl) r h hh

theorem StandardQueue.on_remove_message_receipts (q : StandardQueue) (m : SqsMessage) :
    (q.on_remove_message m).receipts = q.receipts := by
  rw [StandardQueue.on_remove_message]
  split
  · rfl
  · split <;> rfl

theorem StandardQueue.on_remove_message_queueArn (q : StandardQueue) (m : SqsMessage) :
    (q.on_remove_message m).queueArn = q.queueArn := by
  rw [StandardQueue.on_remove_message]
  split
  · rfl
  · split <;> rfl

theorem FifoQueue.get_message_group_receipts (q : FifoQueue) (gid : Option String) :
    (q.get_message_group gid).1.receipts = q.receipts := by
  show (if (alGet q.messageGroups gid).isSome then q
    else { q with messageGroups := alSet q.messageGroups gid [] }).receipts = q.receipts
  split <;> rfl

theorem FifoQueue.get_message_group_queueArn (q : FifoQueue) (gid : Option String) :
    (q.get_message_group gid).1.queueArn = q.queueArn := by
  show (if (alGet q.messageGroups gid).isSome then q
    else { q with messageGroups := alSet q.messageGroups gid [] }).queueArn = q.queueArn
  split <;> rfl

theorem FifoQueue.update_message_group_visibility_receipts (q : FifoQueue)
    (gid : Option String) :
    (q.update_message_group_visibility gid).receipts = q.receipts := by
  simp only [FifoQueue.update_message_group_visibility]
  split
  · split
    · rfl
    · split <;> rfl
  · rfl

theorem FifoQueue.update_message_group_visibility_queueArn (q : FifoQueue)
    (gid : Option String) :
    (q.update_message_group_visibility gid).queueArn = q.queueArn := by
  simp only [FifoQueue.update_message_group_visibility]
  split
  · split
    · rfl
    · split <;> rfl
  · rfl

theorem FifoQueue.on_remove_message_receipts_fifo (q : FifoQueue) (m : SqsMessage) :
    (q.on_remove_message m).receipts = q.receipts := by
  show (FifoQueue.update_message_group_visibility _ m.messageGroupId).receipts = q.receipts
  rw [FifoQueue.update_message_group_visibility_receipts]
  show (q.get_message_group m.messageGroupId).1.receipts = q.receipts
  exact FifoQueue.get_message_group_receipts q m.messageGroupId

theorem FifoQueue.on_remove_message_queueArn_fifo (q : FifoQueue) (m : SqsMessage) :
    (q.on_remove_message m).queueArn = q.queueArn := by
  show (FifoQueue.update_message_group_visibility _ m.messageGroupId).queueArn = q.queueArn
  rw [FifoQueue.update_message_group_visibility_queueArn]
  show (q.get_message_group m.messageGroupId).1.queueArn = q.queueArn
  exact FifoQueue.get_message_group_queueArn q m.messageGroupId

/-- After a successful resolving delete, the deleted message's handles are
all gone from `receipts` and the queue arn is unchanged. -/
theorem StandardQueue.remove_ok_props (q : StandardQueue) (h : ReceiptHandle)
    (m : SqsMessage) (q1 : StandardQueue)
    (harn : q.queueArn = h.queueArn)
    (hget : alGet q.receipts h = some m) (hmem : h ∈ m.receiptHandles)
    (hfirst : q.remove h = .ok q1) :
    q1.queueArn = h.queueArn ∧ alGet q1.receipts h = none := by
  rw [StandardQueue.remove, if_neg (not_not_intro harn), hget] at hfirst
  split at hfirst
  · rename_i heq
    exact absurd heq (by simp)
  · rename_i message heq
    injection heq with hmsg
    subst hmsg
    injection hfirst with hq1
    subst hq1
    constructor
    · rw [StandardQueue.on_remove_message_queueArn]
      exact harn
    · rw [StandardQueue.on_remove_message_receipts]
      refine alGet_syncReceipts_none _ _ h ?_
      refine alGet_foldl_alRemove_mem _ _ h ?_
      exact hmem

theorem StandardQueue.remove_idem (q : StandardQueue) (h : ReceiptHandle)
    (q1 : StandardQueue)
    (hinv : ∀ m2, alGet q.receipts h = some m2 → h ∈ m2.receiptHandles)
    (hfirst : q.remove h = .ok q1) :
    q1.remove h = .ok q1 := by
  by_cases harn : q.queueArn = h.queueArn
  · rcases halg : alGet q.receipts h with _ | m
    · rw [StandardQueue.remove, if_neg (not_not_intro harn), halg] at hfirst
      injection hfirst with hq1
      subst hq1
      rw [StandardQueue.remove, if_neg (not_not_intro harn), halg]
    · have hprops := StandardQueue.remove_ok_props q h m q1 harn halg (hinv m halg) hfirst
      rw [StandardQueue.remove, if_neg (not_not_intro hprops.1), hprops.2]
  · rw [StandardQueue.remove, if_pos harn] at hfirst
    exact absurd hfirst (by simp)

theorem FifoQueue.remove_ok_props_fifo (q : FifoQueue) (h : ReceiptHandle) (now : Int)
    (m : SqsMessage) (q1 : FifoQueue)
    (harn : q.queueArn = h.queueArn)
    (hget : alGet q.receipts h = some m) (hmem : h ∈ m.receiptHandles)
    (hfirst : q.remove h now = .ok q1) :
    q1.queueArn = h.queueArn ∧ alGet q1.receipts h = none := by
  rw [FifoQueue.remove, if_neg (not_not_intro harn), hget] at hfirst
  split at hfirst
  · rename_i heq
    exact absurd heq (by simp)
  · rename_i message heq
    injection heq with hmsg
    subst hmsg
    split at hfirst
    · exact absurd hfirst (by simp)
    · injection hfirst with hq1
      subst hq1
      constructor
      · rw [FifoQueue.on_remove_message_queueArn_fifo]
        exact harn
      · rw [FifoQueue.on_remove_message_receipts_fifo]
        refine alGet_syncReceipts_none _ _ h ?_
        refine alGet_foldl_alRemove_mem _ _ h ?_
        exact hmem

theorem FifoQueue.remove_idem_fifo (q : FifoQueue) (h : ReceiptHandle)
    (now now2 : Int) (q1 : FifoQueue)
    (hinv : ∀ m2, alGet q.receipts h = some m2 → h ∈ m2.receiptHandles)
    (hfirst : q.remove h now = .ok q1) :
    q1.remove h now2 = .ok q1 := by
  by_cases harn : q.queueArn = h.queueArn
  · rcases halg : alGet q.receipts h with _ | m
    · rw [FifoQueue.remove, if_neg (not_not_intro harn), halg] at hfirst
      injection hfirst with hq1
      subst hq1
      rw [FifoQueue.remove, if_neg (not_not_intro harn), halg]
    · have hprops := FifoQueue.remove_ok_props_fifo q h now m q1 harn halg (hinv m halg) hfirst
      rw [FifoQueue.remove, if_neg (not_not_intro hprops.1), hprops.2]
  · rw [FifoQueue.remove, if_pos harn] at hfirst
    exact absurd hfirst (by simp)

/-- C6: on both queue types, a second `remove` with the same receipt handle
after a successful first `remove` is a no-op: no error is raised and the
queue state comes back unchanged, because a resolving delete drops every
receipt handle of the deleted message from `receipts`, so the second call
returns before any deletion logic runs (the hypothesis is the registration
invariant that a handle stored in `receipts` is also recorded on its
message; a first call that never resolved the handle was already a no-op). -/
theorem remove_twice_noop (qs : StandardQueue) (h : ReceiptHandle)
    (q1 : StandardQueue)
    (hinv : ∀ m2, alGet qs.receipts h = some m2 → h ∈ m2.receiptHandles)
    (hfirst : qs.remove h = .ok q1)
    (qf : FifoQueue) (hf : ReceiptHandle) (q2 : FifoQueue) (now now2 : Int)
    (hinvf : ∀ m2, alGet qf.receipts hf = some m2 → hf ∈ m2.receiptHandles)
    (hfirstf : qf.remove hf now = .ok q2) :
    q1.remove h = .ok q1 ∧ q2.remove hf now2 = .ok q2 :=
  ⟨StandardQueue.remove_idem qs h q1 hinv hfirst,
   FifoQueue.remove_idem_fifo qf hf now now2 q2 hinvf hfirstf⟩

def c6StdDone : StandardQueue :=
  { c5Std with inflight := [], receipts := [] }

def c6FifoDone : FifoQueue :=
  { c5Fifo with
    inflight := [],
    receipts := [],
    messageGroups := [(some "g", [])] }

/-- C6 witness. -/
theorem remove_twice_noop_witness :
    (∀ m2, alGet c5Std.receipts c5Handle = some m2 → c5Handle ∈ m2.receiptHandles) ∧
    c5Std.remove c5Handle = .ok c6StdDone ∧
    (∀ m2, alGet c5Fifo.receipts c5FifoHandle = some m2 →
      c5FifoHandle ∈ m2.receiptHandles) ∧
    c5Fifo.remove c5FifoHandle 20 = .ok c6FifoDone ∧
    c6StdDone.remove c5Handle = .ok c6StdDone ∧
    c6FifoDone.remove c5FifoHandle 99 = .ok c6FifoDone := by
  have hinvS : ∀ m2, alGet c5Std.receipts c5Handle = some m2 →
      c5Handle ∈ m2.receiptHandles := by
    intro m2 hm2
    rw [show alGet c5Std.receipts c5Handle = some c5Msg from rfl] at hm2
    injection hm2 with h2
    rw [← h2]
    decide
  have hinvF : ∀ m2, alGet c5Fifo.receipts c5FifoHandle = some m2 →
      c5FifoHandle ∈ m2.receiptHandles := by
    intro m2 hm2
    rw [show alGet c5Fifo.receipts c5FifoHandle = some c5FifoMsg from rfl] at hm2
    injection hm2 with h2
    rw [← h2]
    decide
  have hmain := remove_twice_noop c5Std c5Handle c6StdDone hinvS rfl
    c5Fifo c5FifoHandle c6FifoDone 20 99 hinvF rfl
  exact ⟨hinvS, rfl, hinvF, rfl, hmain.1, hmain.2⟩
